import Mathlib

/-!
Verification of the rate-ingestion subsystem of the valutatrade_hub
repository (parser_service/updater.py, parser_service/storage.py,
parser_service/api_clients.py, core/utils.py) against its specification.

The Python code is shallowly embedded: Python dicts become association
lists over `String` keys (insertion order preserved, assignment replaces
in place, as CPython dicts do), JSON values become the `Json` inductive,
Python floats become `ℚ`, exceptions become `Except PyErr`, the
filesystem state of the two persisted artifacts becomes the `Store`
structure, and each call of `datetime.now(timezone.utc)` is fed from an
explicit clock.
-/

set_option autoImplicit false

namespace ValutaTrade

/-! ## Python dict semantics over association lists -/

/-- Membership test for a Python-dict key (`k in d`). -/
def dictHasKey {α : Type} : List (String × α) → String → Bool
  | [], _ => false
  | kv :: rest, key => kv.1 == key || dictHasKey rest key

/-- Python dict lookup `d[k]` as an `Option` (first matching entry;
dicts built by `dictInsert` never hold duplicate keys). -/
def dictLookup {α : Type} : List (String × α) → String → Option α
  | [], _ => none
  | kv :: rest, key => if kv.1 = key then some kv.2 else dictLookup rest key

/-- Python dict assignment `d[k] = v`: replaces the value in place when the
key is present (keeping its position), otherwise appends at the end. -/
def dictInsert {α : Type} (d : List (String × α)) (key : String) (v : α) :
    List (String × α) :=
  if dictHasKey d key then
    d.map (fun kv => if kv.1 = key then (key, v) else kv)
  else d ++ [(key, v)]

/-- Python `d.update(other)`: sets every key of `other` in `d`, in order. -/
def dictUpdate {α : Type} (d other : List (String × α)) : List (String × α) :=
  other.foldl (fun acc kv => dictInsert acc kv.1 kv.2) d

/-! ## Python string primitives used by the sources -/

/-- Python `c in s` for a single character `c`. -/
def strHasChar (s : String) (c : Char) : Bool :=
  s.data.contains c

/-- `needle.isPrefixOf`-based substring test on char lists. -/
def subOf (needle : List Char) : List Char → Bool
  | [] => needle.isPrefixOf []
  | c :: rest => needle.isPrefixOf (c :: rest) || subOf needle rest

/-- Python `sub in s` (substring containment). -/
def strContains (s sub : String) : Bool :=
  subOf sub.data s.data

/-- Python `s.upper()` (all our inputs are ASCII). -/
def pyUpper (s : String) : String :=
  ⟨s.data.map Char.toUpper⟩

/-- Python `s.lower()` (all our inputs are ASCII). -/
def pyLower (s : String) : String :=
  ⟨s.data.map Char.toLower⟩

/-- Python `s.split(c)` for a one-character separator, on char lists. -/
def splitOnCharAux (c : Char) : List Char → List (List Char)
  | [] => [[]]
  | a :: rest =>
    match splitOnCharAux c rest with
    | [] => if a = c then [[], [a]] else [[a]]
    | h :: t => if a = c then [] :: h :: t else (a :: h) :: t

/-- Python `s.split(c)` for a one-character separator. -/
def pySplitChar (s : String) (c : Char) : List String :=
  (splitOnCharAux c s.data).map List.asString

/-- Python `s.replace(c, "")` for a one-character target: drops every
occurrence of `c`. -/
def pyRemoveAll (s : String) (c : Char) : String :=
  ⟨s.data.filter (fun a => a != c)⟩

/-- Python `s.replace("Z", "+00:00")` from `is_rate_cache_fresh`. -/
def pyReplaceZ (s : String) : String :=
  ⟨(s.data.map (fun a => if a = 'Z' then "+00:00".data else [a])).flatten⟩

/-! ## The clock: `datetime.now(timezone.utc)` values and `.isoformat()`

`datetime.now(timezone.utc)` yields an aware UTC datetime whose
`isoformat()` rendering is `YYYY-MM-DDTHH:MM:SS.ffffff+00:00`
(microsecond precision, zero-padded fields, year at most 9999). -/

/-- A UTC wall-clock instant as Python's `datetime` decomposes it. -/
structure UtcTime where
  year : Nat
  month : Nat
  day : Nat
  hour : Nat
  minute : Nat
  second : Nat
  micro : Nat
deriving DecidableEq, Repr

/-- The decimal digit character for `n % 10`. -/
def dchD (n : Nat) : Char :=
  ['0', '1', '2', '3', '4', '5', '6', '7', '8', '9'].getD (n % 10) '0'

/-- Characters of a two-digit zero-padded decimal field. -/
def pad2c (n : Nat) : List Char := [dchD (n / 10), dchD n]

/-- Characters of a four-digit zero-padded decimal field. -/
def pad4c (n : Nat) : List Char :=
  [dchD (n / 1000), dchD (n / 100), dchD (n / 10), dchD n]

/-- Characters of a six-digit zero-padded decimal field. -/
def pad6c (n : Nat) : List Char :=
  [dchD (n / 100000), dchD (n / 10000), dchD (n / 1000), dchD (n / 100),
   dchD (n / 10), dchD n]

/-- Two-digit zero-padded decimal field (`f"{n:02d}"` for `n < 100`). -/
def pad2 (n : Nat) : String := ⟨pad2c n⟩

/-- Four-digit zero-padded decimal field (`f"{n:04d}"` for `n < 10000`). -/
def pad4 (n : Nat) : String := ⟨pad4c n⟩

/-- Six-digit zero-padded decimal field (`f"{n:06d}"` for `n < 1000000`). -/
def pad6 (n : Nat) : String := ⟨pad6c n⟩

/-- Python `datetime.now(timezone.utc).isoformat()`. -/
def isoformat (t : UtcTime) : String :=
  pad4 t.year ++ "-" ++ pad2 t.month ++ "-" ++ pad2 t.day ++ "T" ++
    pad2 t.hour ++ ":" ++ pad2 t.minute ++ ":" ++ pad2 t.second ++ "." ++
    pad6 t.micro ++ "+00:00"

/-- The id-sanitising chain from `RatesStorage.append_to_history`:
`now.replace(":", "").replace("-", "").replace(".", "").replace("+", "")`. -/
def stripTs (s : String) : String :=
  pyRemoveAll (pyRemoveAll (pyRemoveAll (pyRemoveAll s ':') '-') '.') '+'

/-- The characters left of an isoformat rendering after the four
`replace` calls of `append_to_history`. -/
def strippedChars (t : UtcTime) : List Char :=
  pad4c t.year ++ pad2c t.month ++ pad2c t.day ++ 'T' ::
    (pad2c t.hour ++ (pad2c t.minute ++ (pad2c t.second ++
      (pad6c t.micro ++ ['0', '0', '0', '0']))))

/-- Field ranges every `datetime.now(timezone.utc)` value satisfies
(Python caps years at 9999; the other bounds are generous). -/
def ValidTime (t : UtcTime) : Prop :=
  t.year < 10000 ∧ t.month < 100 ∧ t.day < 100 ∧ t.hour < 100 ∧
    t.minute < 100 ∧ t.second < 100 ∧ t.micro < 1000000

instance (t : UtcTime) : Decidable (ValidTime t) := by
  unfold ValidTime; infer_instance

/-! ## Exceptions and JSON values -/

/-- The Python exceptions the embedded code can raise or catch.
`valueError` is the builtin `ValueError`; `validationError` is the
repository's own `core.exceptions.ValidationError` class (never raised by
the storage layer, but needed to state claims about it);
`apiRequestError` is `core.exceptions.ApiRequestError`. -/
inductive PyErr where
  | valueError (msg : String)
  | typeError
  | attributeError
  | keyError (key : String)
  | zeroDivisionError
  | validationError (field : String) (msg : String)
  | apiRequestError (reason : String)
deriving DecidableEq, Repr

/-- Python `str(e)` for the exceptions that reach an f-string in the
embedded code paths. -/
def pyStr : PyErr → String
  | .valueError msg => msg
  | .typeError => "TypeError"
  | .attributeError => "AttributeError"
  | .keyError key => key
  | .zeroDivisionError => "division by zero"
  | .validationError field msg =>
      "Ошибка валидации поля " ++ field ++ ": " ++ msg
  | .apiRequestError reason =>
      "Ошибка при обращении к внешнему API: " ++ reason

/-- A parsed JSON value (`json.load` result). Objects are CPython dicts:
ordered, no duplicate keys. -/
inductive Json where
  | null
  | bool (b : Bool)
  | num (q : ℚ)
  | str (s : String)
  | arr (items : List Json)
  | obj (entries : List (String × Json))

/-- Python `k in data` for a JSON value: dict-key membership for objects,
element equality for lists, substring for strings, `TypeError` otherwise
(`argument of type ... is not iterable`). -/
def jsonContains (v : Json) (k : String) : Except PyErr Bool :=
  match v with
  | .obj kvs => .ok (dictHasKey kvs k)
  | .arr xs => .ok (xs.any (fun x => match x with | .str s => s == k | _ => false))
  | .str s => .ok (strContains s k)
  | _ => .error .typeError

/-- Python `data[k] = x` on a JSON value: dict assignment for objects,
`TypeError` for every other shape. -/
def jsonSetKey (v : Json) (k : String) (x : Json) : Except PyErr Json :=
  match v with
  | .obj kvs => .ok (.obj (dictInsert kvs k x))
  | _ => .error .typeError

/-! ## Persisted state (`data/rates.json` and `data/exchange_rates.json`) -/

/-- One record of the history file, as `append_to_history` builds it
(`meta` is the constant `{"request_ms": 0, "status_code": 200}`). -/
structure HistoryRecord where
  id : String
  from_currency : String
  to_currency : String
  rate : ℚ
  timestamp : String
  source : String
  meta_request_ms : Nat
  meta_status_code : Nat
deriving DecidableEq, Repr

/-- The observable states of the snapshot file `rates.json`: missing,
`OSError` on read, `json.JSONDecodeError`, or some parsed JSON value. -/
inductive FileState where
  | absent
  | unreadable
  | malformed
  | json (v : Json)

/-- The observable states of the history file `exchange_rates.json`.
A parsed JSON list of records is `jsonArr`; parsed JSON of any other
shape is `jsonNonList` (the `isinstance(data, list)` check in
`_load_history` discards it). -/
inductive HistFileState where
  | absent
  | unreadable
  | malformed
  | jsonArr (records : List HistoryRecord)
  | jsonNonList

/-- The two files `RatesStorage` owns. -/
structure Store where
  ratesFile : FileState
  historyFile : HistFileState

/-! ## `parser_service/config.py` -/

/-- `ParserConfig.BASE_CURRENCY`. -/
def BASE_CURRENCY : String := "USD"

/-- `ParserConfig.FIAT_CURRENCIES`. -/
def FIAT_CURRENCIES : List String :=
  ["EUR", "GBP", "RUB", "JPY", "CHF", "CNY", "AUD"]

/-- `ParserConfig.CRYPTO_ID_MAP` (insertion order of the dict literal). -/
def CRYPTO_ID_MAP : List (String × String) :=
  [("BTC", "bitcoin"), ("ETH", "ethereum"), ("SOL", "solana"),
   ("XRP", "ripple"), ("DOGE", "dogecoin"), ("ADA", "cardano")]

/-! ## `parser_service/storage.py` — `RatesStorage`

Every storage operation takes the `datetime.now(timezone.utc)` value it
observes as an explicit `UtcTime` argument. `_atomic_write` always
succeeds in this model (fsync/rename failures are out of scope of the
claims), so a write simply replaces the file state. -/

/-- The fresh snapshot `{"pairs": {}, "last_refresh": now.isoformat()}`. -/
def emptySnapshot (t : UtcTime) : Json :=
  .obj [("pairs", .obj []), ("last_refresh", .str (isoformat t))]

/-- `RatesStorage.load_current_rates`: missing file and caught
`json.JSONDecodeError`/`OSError` degrade to the empty snapshot; a parsed
value is returned after ensuring the `pairs` and `last_refresh` keys,
which for non-object JSON can raise an uncaught `TypeError`. -/
def load_current_rates (fs : FileState) (t : UtcTime) : Except PyErr Json :=
  match fs with
  | .absent => .ok (emptySnapshot t)
  | .unreadable => .ok (emptySnapshot t)
  | .malformed => .ok (emptySnapshot t)
  | .json data =>
    match jsonContains data "pairs" with
    | .error e => .error e
    | .ok hasPairs =>
      match (if hasPairs then .ok data else jsonSetKey data "pairs" (.obj [])) with
      | .error e => .error e
      | .ok data1 =>
        match jsonContains data1 "last_refresh" with
        | .error e => .error e
        | .ok hasLR =>
          if hasLR then .ok data1
          else jsonSetKey data1 "last_refresh" (.str (isoformat t))

/-- The quote object `{"rate": rate, "updated_at": now, "source": source}`
written for one pair by `save_current_rates`. -/
def quoteJson (rate : ℚ) (nowS source : String) : Json :=
  .obj [("rate", .num rate), ("updated_at", .str nowS), ("source", .str source)]

/-- One step `current_data["pairs"][pair] = quote` of the save loop:
subscripting anything but a dict raises `TypeError`; a missing `"pairs"`
key would raise `KeyError` (unreachable after `load_current_rates`). -/
def setPairQuote (cur : Json) (pair : String) (q : Json) : Except PyErr Json :=
  match cur with
  | .obj kvs =>
    match dictLookup kvs "pairs" with
    | some (.obj ps) => .ok (.obj (dictInsert kvs "pairs" (.obj (dictInsert ps pair q))))
    | some _ => .error .typeError
    | none => .error (.keyError "pairs")
  | _ => .error .typeError

/-- The `for pair, rate in rates.items()` loop of `save_current_rates`. -/
def setQuotesLoop (nowS source : String) :
    Json → List (String × ℚ) → Except PyErr Json
  | cur, [] => .ok cur
  | cur, (pair, rate) :: rest =>
    match setPairQuote cur pair (quoteJson rate nowS source) with
    | .error e => .error e
    | .ok cur' => setQuotesLoop nowS source cur' rest

/-- `RatesStorage.save_current_rates`: load the current snapshot, overwrite
the given pairs' quotes with `updated_at = now`, set `last_refresh`, and
atomically write the result. -/
def save_current_rates (st : Store) (t : UtcTime) (rates : List (String × ℚ))
    (source : String) : Except PyErr Store :=
  match load_current_rates st.ratesFile t with
  | .error e => .error e
  | .ok current =>
    match setQuotesLoop (isoformat t) source current rates with
    | .error e => .error e
    | .ok current1 =>
      match jsonSetKey current1 "last_refresh" (.str (isoformat t)) with
      | .error e => .error e
      | .ok current2 => .ok { st with ratesFile := .json current2 }

/-- The record `append_to_history` builds for one pair at one instant. -/
def mkHistoryRecord (pair : String) (rate : ℚ) (t : UtcTime)
    (source : String) : HistoryRecord :=
  let nowS := isoformat t
  let parts := pySplitChar pair '_'
  let from_currency := pyUpper (parts.headD "")
  let to_currency :=
    if parts.length > 1 then pyUpper (parts.getD 1 "") else BASE_CURRENCY
  { id := from_currency ++ "_" ++ to_currency ++ "_" ++ stripTs nowS
    from_currency := from_currency
    to_currency := to_currency
    rate := rate
    timestamp := nowS
    source := source
    meta_request_ms := 0
    meta_status_code := 200 }

/-- `RatesStorage._load_history`: absent/corrupt/non-list content
degrades to the empty list. -/
def load_history : HistFileState → List HistoryRecord
  | .jsonArr records => records
  | _ => []

/-- `RatesStorage.append_to_history`: rejects a pair without the `_`
separator with a builtin `ValueError`, otherwise loads the history,
appends one fresh record and atomically rewrites the file. -/
def append_to_history (st : Store) (t : UtcTime) (pair : String) (rate : ℚ)
    (source : String) : Except PyErr Store :=
  if pair = "" ∨ strHasChar pair '_' = false then
    .error (.valueError ("Некорректный формат пары валют: " ++ pair))
  else
    let record := mkHistoryRecord pair rate t source
    let history := load_history st.historyFile
    .ok { st with historyFile := .jsonArr (history ++ [record]) }

/-! ## `parser_service/api_clients.py`

Both clients are modelled from the point where `response.json()` has
produced a value of the documented shape (numeric prices/multipliers);
the network-level failure modes (timeout, connection error, HTTP status)
happen before that point and surface to the updater only as the message
string of the raised `ApiRequestError`, which the updater model takes as
an opaque input. -/

/-- The inner `for code, coin_id in config.CRYPTO_ID_MAP.items()` loop of
`CoinGeckoClient.fetch_rates`: a pair is produced only when the asset id
is present in the response and carries the lowercase base-currency key. -/
def cgLoop (data : List (String × List (String × ℚ))) :
    List (String × String) → List (String × ℚ) → List (String × ℚ)
  | [], rates => rates
  | (code, coin_id) :: rest, rates =>
    match dictLookup data coin_id with
    | none => cgLoop data rest rates
    | some entry =>
      match dictLookup entry (pyLower BASE_CURRENCY) with
      | none => cgLoop data rest rates
      | some rate =>
        cgLoop data rest (dictInsert rates (code ++ "_" ++ BASE_CURRENCY) rate)

/-- `CoinGeckoClient.fetch_rates` after a successful HTTP round trip, on
the parsed response mapping `asset_id → {currency → price}`. -/
def fetch_rates_coingecko (data : List (String × List (String × ℚ))) :
    List (String × ℚ) :=
  cgLoop data CRYPTO_ID_MAP []

/-- The parsed ExchangeRate-API response body. -/
structure FxResponse where
  result : String
  conversion_rates : List (String × ℚ)
  error_type : Option String

/-- The `for currency_code in config.FIAT_CURRENCIES` loop of
`ExchangeRateApiClient.fetch_rates`: each configured code present in
`conversion_rates` contributes `1 / multiplier`; Python float division by
a zero multiplier raises `ZeroDivisionError`. -/
def invertLoop (conv : List (String × ℚ)) :
    List String → List (String × ℚ) → Except PyErr (List (String × ℚ))
  | [], rates => .ok rates
  | code :: rest, rates =>
    match dictLookup conv code with
    | none => invertLoop conv rest rates
    | some n =>
      if n = 0 then .error .zeroDivisionError
      else invertLoop conv rest (dictInsert rates (code ++ "_" ++ BASE_CURRENCY) (1 / n))

/-- The body of the `try` block of `ExchangeRateApiClient.fetch_rates`
after a successful HTTP round trip: a non-`"success"` result raises
`ApiRequestError`, otherwise the configured quote rates are inverted. -/
def fxTryBody (resp : FxResponse) : Except PyErr (List (String × ℚ)) :=
  if resp.result ≠ "success" then
    .error (.apiRequestError
      ("Ошибка ExchangeRate-API: " ++ resp.error_type.getD "Неизвестная ошибка API"))
  else invertLoop resp.conversion_rates FIAT_CURRENCIES []

/-- `ExchangeRateApiClient.fetch_rates` after a successful HTTP round
trip. The missing/placeholder API-key check precedes the `try` block, and
the trailing `except Exception` clause re-wraps any exception raised
inside the `try` (including the non-success `ApiRequestError` and
`ZeroDivisionError`) in a fresh `ApiRequestError`. -/
def fetch_rates_exchangerate (api_key : String) (resp : FxResponse) :
    Except PyErr (List (String × ℚ)) :=
  if api_key = "" ∨ api_key = "YOUR_API_KEY_HERE" then
    .error (.apiRequestError
      ("API ключ для ExchangeRate-API не настроен. " ++
       "Добавьте ключ в файл .env: EXCHANGERATE_API_KEY=ваш_ключ"))
  else
    match fxTryBody resp with
    | .ok rates => .ok rates
    | .error e =>
      .error (.apiRequestError
        ("Неизвестная ошибка при запросе к ExchangeRate-API: " ++ pyStr e))

/-! ## `core/utils.py` — `is_rate_cache_fresh` -/

/-- The value passed as `updated_at`: `None` or a string. -/
inductive TsArg where
  | pynone
  | pystr (s : String)

/-- `is_rate_cache_fresh(updated_at, ttl_seconds)`. `parse` abstracts
`datetime.fromisoformat` (`none` = raises `ValueError`, `some T` = the
parsed instant, as seconds); `now` is `datetime.now(updated_dt.tzinfo)`
on the same scale. Only `ValueError`/`TypeError` are caught, so
`None.replace` escapes as an uncaught `AttributeError`. -/
def is_rate_cache_fresh (parse : String → Option ℚ) (now : ℚ)
    (updated_at : TsArg) (ttl_seconds : ℤ) : Except PyErr Bool :=
  match updated_at with
  | .pynone => .error .attributeError
  | .pystr s =>
    match parse (pyReplaceZ s) with
    | none => .ok false
    | some updated => .ok (decide (now - updated < (ttl_seconds : ℚ)))

/-! ## `parser_service/updater.py` — `RatesUpdater.run_update`

The two fetches are inputs (`Except String (List (String × ℚ))`: an
error carries `str(e)` of the exception the client raised, a success
carries the returned pair dict). `clock k` is the value of the `k`-th
`datetime.now(timezone.utc)` call of the cycle: call 0 builds
`results["timestamp"]`, the following calls happen inside the successive
`append_to_history` invocations, and the final one inside
`save_current_rates`. -/

/-- The mutable `results` dict of `run_update`. -/
structure UpdateResult where
  success : Bool
  updated_pairs : List (String × ℚ)
  errors : List String
  timestamp : String
deriving DecidableEq, Repr

/-- The running state of one cycle: the store, the clock tick, and the
`updated_pairs`/`errors`/`success` entries of `results`. -/
structure CycleAcc where
  st : Store
  tick : Nat
  up : List (String × ℚ)
  errs : List String
  suc : Bool

/-- The `for pair, rate in rates.items(): append_to_history(...)` loop of
one adapter block. A raise aborts the loop, keeping the partial store;
a failing pair raises before its `datetime.now` call, so it consumes no
tick. -/
def appendAllTick (clock : Nat → UtcTime) (histSource : String) :
    Store → Nat → List (String × ℚ) → Store × Nat × Option PyErr
  | st, tick, [] => (st, tick, none)
  | st, tick, (pair, rate) :: rest =>
    match append_to_history st (clock tick) pair rate histSource with
    | .error e => (st, tick, some e)
    | .ok st' => appendAllTick clock histSource st' (tick + 1) rest

/-- One `try/except` adapter block of `run_update`: a fetch failure or an
append failure appends `"<label>: <str(e)>"` to `errors` and clears
`success`; on full success the fetched dict is merged into
`updated_pairs`. -/
def runAdapter (clock : Nat → UtcTime) (label : String)
    (fetchRes : Except String (List (String × ℚ))) (acc : CycleAcc) : CycleAcc :=
  match fetchRes with
  | .error m =>
    { acc with suc := false, errs := acc.errs ++ [label ++ ": " ++ m] }
  | .ok rates =>
    match appendAllTick clock label acc.st acc.tick rates with
    | (st', tick', none) =>
      { acc with st := st', tick := tick', up := dictUpdate acc.up rates }
    | (st', tick', some e) =>
      { st := st', tick := tick', up := acc.up,
        errs := acc.errs ++ [label ++ ": " ++ pyStr e], suc := false }

/-- The `source_name` computation of `run_update` (lines 65–73): with
exactly one error the label is chosen by substring-matching
`"ExchangeRate-API"` against the error text. -/
def sourceNameOf (errs : List String) : String :=
  if errs.length = 1 then
    if strContains (errs.headD "") "ExchangeRate-API" then "CoinGecko"
    else "ExchangeRate-API"
  else if errs.length = 0 then "CoinGecko+ExchangeRate-API"
  else "ParserService"

/-- The two adapter blocks of `run_update`, guarded by `selected_source`. -/
def cycleAcc (source : Option String)
    (cryptoResult fiatResult : Except String (List (String × ℚ)))
    (clock : Nat → UtcTime) (st : Store) : CycleAcc :=
  let acc0 : CycleAcc := ⟨st, 1, [], [], true⟩
  let acc1 :=
    if source = none ∨ source = some "coingecko" then
      runAdapter clock "CoinGecko" cryptoResult acc0
    else acc0
  if source = none ∨ source = some "exchangerate" then
    runAdapter clock "ExchangeRate-API" fiatResult acc1
  else acc1

/-- The tail of `run_update` (lines 63–81): if any pairs were fetched,
write them to the snapshot under the computed `source_name`, then return
the `results` dict. Exceptions escaping `save_current_rates` are
uncaught. -/
def finishCycle (clock : Nat → UtcTime) (acc : CycleAcc) :
    Except PyErr (UpdateResult × Store) :=
  if acc.up = [] then .ok (⟨acc.suc, acc.up, acc.errs, isoformat (clock 0)⟩, acc.st)
  else
    match save_current_rates acc.st (clock acc.tick) acc.up (sourceNameOf acc.errs) with
    | .error e => .error e
    | .ok st' => .ok (⟨acc.suc, acc.up, acc.errs, isoformat (clock 0)⟩, st')

/-- `RatesUpdater.run_update`: run the (selected) adapter blocks, then the
conditional snapshot write. -/
def run_update (source : Option String)
    (cryptoResult fiatResult : Except String (List (String × ℚ)))
    (clock : Nat → UtcTime) (st : Store) : Except PyErr (UpdateResult × Store) :=
  finishCycle clock (cycleAcc source cryptoResult fiatResult clock st)

/-! ## Helper notions for stating the claims -/

/-- `d` with key `k` defaulted to `v` when absent (the effect of the two
`if ... not in data` blocks of `load_current_rates` on an object). -/
def ensureKey (d : List (String × Json)) (k : String) (v : Json) :
    List (String × Json) :=
  if dictHasKey d k then d else d ++ [(k, v)]

/-- The pair dict a snapshot-file state holds from the point of view of a
subsequent `save_current_rates`: the empty dict for the degraded read
paths and for an object without a `"pairs"` key, the stored dict for an
object whose `"pairs"` is an object, and `none` exactly when the save
would raise (`TypeError` on non-object JSON or a non-object `"pairs"`). -/
def loadedSnapPairs : FileState → Option (List (String × Json))
  | .absent => some []
  | .unreadable => some []
  | .malformed => some []
  | .json (.obj kvs) =>
    match dictLookup kvs "pairs" with
    | some (.obj ps) => some ps
    | some _ => none
    | none => some []
  | .json _ => none

/-- `N` successive `append_to_history` calls for one pair, each with its
own rate and `datetime.now` value. -/
def appendMany (pair source : String) :
    Store → List (ℚ × UtcTime) → Except PyErr Store
  | st, [] => .ok st
  | st, (rate, t) :: rest =>
    match append_to_history st t pair rate source with
    | .error e => .error e
    | .ok st' => appendMany pair source st' rest

/-- Whether a storage call failed with the repository's
`core.exceptions.ValidationError` class. -/
def raisedValidationError : Except PyErr Store → Bool
  | .error (.validationError _ _) => true
  | _ => false

/-- A concrete instant, for witnesses. -/
def t0 : UtcTime := ⟨2024, 1, 2, 3, 4, 5, 6⟩

/-- A later concrete instant, for witnesses. -/
def t1 : UtcTime := ⟨2024, 1, 2, 3, 4, 5, 7⟩

/-- A frozen clock, for witnesses. -/
def clk0 : Nat → UtcTime := fun _ => t0

/-- A store with both files absent, for witnesses. -/
def st0 : Store := ⟨.absent, .absent⟩

/-! ## Association-list lemmas -/

@[simp]
theorem dictLookup_nil {α : Type} (key : String) :
    dictLookup ([] : List (String × α)) key = none := rfl

@[simp]
theorem dictLookup_cons {α : Type} (kv : String × α) (rest : List (String × α))
    (key : String) :
    dictLookup (kv :: rest) key =
      if kv.1 = key then some kv.2 else dictLookup rest key := rfl

@[simp]
theorem dictHasKey_nil {α : Type} (key : String) :
    dictHasKey ([] : List (String × α)) key = false := rfl

@[simp]
theorem dictHasKey_cons {α : Type} (kv : String × α) (rest : List (String × α))
    (key : String) :
    dictHasKey (kv :: rest) key = (kv.1 == key || dictHasKey rest key) := rfl

theorem dictHasKey_eq_isSome {α : Type} (d : List (String × α)) (key : String) :
    dictHasKey d key = (dictLookup d key).isSome := by
  induction d with
  | nil => rfl
  | cons kv rest ih =>
    by_cases h : kv.1 = key <;> simp [h, ih]

theorem dictLookup_append_left {α : Type} {d : List (String × α)} {key : String}
    {x : α} (l : List (String × α)) (h : dictLookup d key = some x) :
    dictLookup (d ++ l) key = some x := by
  induction d with
  | nil => simp at h
  | cons kv rest ih =>
    by_cases hk : kv.1 = key <;> simp_all

theorem dictLookup_append_right {α : Type} {d : List (String × α)} {key : String}
    (l : List (String × α)) (h : dictHasKey d key = false) :
    dictLookup (d ++ l) key = dictLookup l key := by
  induction d with
  | nil => simp
  | cons kv rest ih =>
    simp only [dictHasKey_cons, Bool.or_eq_false_iff, beq_eq_false_iff_ne] at h
    simp [h.1, ih h.2]

theorem dictInsert_of_not_hasKey {α : Type} {d : List (String × α)} {key : String}
    (v : α) (h : dictHasKey d key = false) :
    dictInsert d key v = d ++ [(key, v)] := by
  unfold dictInsert
  rw [h]
  simp

theorem dictLookup_insert_self {α : Type} (d : List (String × α)) (key : String)
    (v : α) : dictLookup (dictInsert d key v) key = some v := by
  unfold dictInsert
  split
  · rename_i h
    induction d with
    | nil => simp at h
    | cons kv rest ih =>
      by_cases hk : kv.1 = key
      · simp [hk]
      · simp only [dictHasKey_cons, Bool.or_eq_true, beq_iff_eq, hk, false_or] at h
        simp [hk, ih h]
  · rename_i h
    rw [Bool.not_eq_true] at h
    rw [dictLookup_append_right _ h]
    simp

theorem dictLookup_replaceMap {α : Type} (d : List (String × α)) {p key : String}
    (v : α) (h : p ≠ key) :
    dictLookup (d.map (fun kv => if kv.1 = key then (key, v) else kv)) p =
      dictLookup d p := by
  induction d with
  | nil => rfl
  | cons kv rest ih =>
    have h1 : ¬(key = p) := fun hc => h hc.symm
    by_cases hk : kv.1 = key
    · have h2 : ¬(kv.1 = p) := by rw [hk]; exact h1
      simp [hk, h1, h2, ih]
    · by_cases hp : kv.1 = p <;> simp [hk, hp, h, ih]

theorem dictLookup_append_single {α : Type} (d : List (String × α))
    {p key : String} (v : α) (h : p ≠ key) :
    dictLookup (d ++ [(key, v)]) p = dictLookup d p := by
  induction d with
  | nil => simp [Ne.symm h]
  | cons kv rest ih =>
    by_cases hp : kv.1 = p <;> simp [hp, ih]

theorem dictLookup_insert_other {α : Type} (d : List (String × α)) {p key : String}
    (v : α) (h : p ≠ key) : dictLookup (dictInsert d key v) p = dictLookup d p := by
  unfold dictInsert
  split
  · exact dictLookup_replaceMap d v h
  · exact dictLookup_append_single d v h

theorem map_fst_replaceMap {α : Type} (d : List (String × α)) (key : String)
    (v : α) :
    (d.map (fun kv => if kv.1 = key then (key, v) else kv)).map Prod.fst =
      d.map Prod.fst := by
  induction d with
  | nil => rfl
  | cons kv rest ih =>
    by_cases hk : kv.1 = key <;> simp [hk, ih]

theorem dictInsert_keys {α : Type} (d : List (String × α)) (key : String) (v : α) :
    (dictInsert d key v).map Prod.fst =
      if dictHasKey d key then d.map Prod.fst else d.map Prod.fst ++ [key] := by
  unfold dictInsert
  by_cases h : dictHasKey d key = true
  · rw [if_pos h, if_pos h]
    exact map_fst_replaceMap d key v
  · rw [if_neg h, if_neg h]
    simp

theorem dictLookup_ne_none_of_mem {α : Type} {d : List (String × α)} {key : String}
    (h : key ∈ d.map Prod.fst) : dictLookup d key ≠ none := by
  induction d with
  | nil => simp at h
  | cons a rest ih =>
    rw [List.map_cons, List.mem_cons] at h
    rcases h with h1 | h1
    · simp [h1.symm]
    · by_cases ha : a.1 = key <;> simp [ha, ih h1]

theorem dictInsert_keysNodup {α : Type} {d : List (String × α)} (key : String)
    (v : α) (h : (d.map Prod.fst).Nodup) :
    ((dictInsert d key v).map Prod.fst).Nodup := by
  rw [dictInsert_keys]
  by_cases hk : dictHasKey d key = true
  · rwa [if_pos hk]
  · rw [if_neg hk]
    rw [Bool.not_eq_true, dictHasKey_eq_isSome] at hk
    have hknone : dictLookup d key = none := by
      cases hval : dictLookup d key with
      | none => rfl
      | some x => rw [hval] at hk; simp at hk
    have hmem : key ∉ d.map Prod.fst := fun hc =>
      dictLookup_ne_none_of_mem hc hknone
    simp [List.nodup_append, h, hmem]

theorem dictUpdate_keysNodup {α : Type} (other : List (String × α)) :
    ∀ d : List (String × α), (d.map Prod.fst).Nodup →
      ((dictUpdate d other).map Prod.fst).Nodup := by
  induction other with
  | nil => exact fun d h => h
  | cons kv rest ih =>
    intro d h
    exact ih _ (dictInsert_keysNodup kv.1 kv.2 h)

theorem dictUpdate_fresh {α : Type} (other : List (String × α)) :
    ∀ d : List (String × α), (other.map Prod.fst).Nodup →
      (∀ k ∈ other.map Prod.fst, dictHasKey d k = false) →
      dictUpdate d other = d ++ other := by
  induction other with
  | nil => simp [dictUpdate]
  | cons kv rest ih =>
    intro d hnd hfresh
    have h0 : dictHasKey d kv.1 = false := hfresh kv.1 (by simp)
    have step : dictInsert d kv.1 kv.2 = d ++ [kv] :=
      dictInsert_of_not_hasKey kv.2 h0
    have hnd' : (rest.map Prod.fst).Nodup := (List.nodup_cons.mp hnd).2
    have hk1 : kv.1 ∉ rest.map Prod.fst := (List.nodup_cons.mp hnd).1
    have hfresh' : ∀ k ∈ rest.map Prod.fst, dictHasKey (d ++ [kv]) k = false := by
      intro k hk
      have hne : kv.1 ≠ k := fun hc => hk1 (hc ▸ hk)
      rw [dictHasKey_eq_isSome, dictLookup_append_single _ kv.2 (Ne.symm hne),
        ← dictHasKey_eq_isSome]
      exact hfresh k (List.mem_cons_of_mem _ hk)
    calc dictUpdate d (kv :: rest)
        = dictUpdate (dictInsert d kv.1 kv.2) rest := rfl
      _ = dictUpdate (d ++ [kv]) rest := by rw [step]
      _ = (d ++ [kv]) ++ rest := ih _ hnd' hfresh'
      _ = d ++ kv :: rest := by simp

theorem dictUpdate_nil_of_nodup {α : Type} (other : List (String × α))
    (h : (other.map Prod.fst).Nodup) : dictUpdate [] other = other := by
  have := dictUpdate_fresh other [] h (fun k _ => rfl)
  simpa using this

/-- Looking up a key untouched by a fold of quote inserts. -/
theorem foldInsert_lookup_not_mem {α β : Type} (f : String → β → α)
    (rates : List (String × β)) :
    ∀ (ps : List (String × α)) (q : String), q ∉ rates.map Prod.fst →
      dictLookup (rates.foldl (fun acc x => dictInsert acc x.1 (f x.1 x.2)) ps) q =
        dictLookup ps q := by
  induction rates with
  | nil => intro ps q _; rfl
  | cons kv rest ih =>
    intro ps q hq
    have hne : q ≠ kv.1 := fun hc => hq (by simp [hc])
    have hq' : q ∉ rest.map Prod.fst := fun hc => hq (by simp [hc])
    rw [List.foldl_cons, ih _ q hq', dictLookup_insert_other _ _ hne]

/-- Looking up one of the keys set by a fold of quote inserts (keys
pairwise distinct). -/
theorem foldInsert_lookup_mem {α β : Type} (f : String → β → α)
    (rates : List (String × β)) :
    ∀ (ps : List (String × α)), (rates.map Prod.fst).Nodup →
      ∀ pr ∈ rates,
        dictLookup (rates.foldl (fun acc x => dictInsert acc x.1 (f x.1 x.2)) ps) pr.1 =
          some (f pr.1 pr.2) := by
  induction rates with
  | nil => intro ps _ pr hpr; simp at hpr
  | cons kv rest ih =>
    intro ps hnd pr hpr
    have hk1 : kv.1 ∉ rest.map Prod.fst := (List.nodup_cons.mp hnd).1
    have hnd' : (rest.map Prod.fst).Nodup := (List.nodup_cons.mp hnd).2
    rcases List.mem_cons.mp hpr with h1 | h1
    · subst h1
      rw [List.foldl_cons, foldInsert_lookup_not_mem f rest _ pr.1 hk1,
        dictLookup_insert_self]
    · rw [List.foldl_cons]
      exact ih _ hnd' pr h1

/-! ## Timestamp lemmas: stripping an isoformat string is injective -/

theorem dchD_toNat (n : Nat) : (dchD n).toNat = 48 + n % 10 := by
  unfold dchD
  have h : n % 10 < 10 := Nat.mod_lt _ (by omega)
  generalize n % 10 = e at h ⊢
  interval_cases e <;> rfl

theorem dchD_ne (n : Nat) {c : Char} (hc : c.toNat < 48 ∨ 57 < c.toNat) :
    dchD n ≠ c := by
  intro h
  have := congrArg Char.toNat h
  rw [dchD_toNat] at this
  have hm : n % 10 < 10 := Nat.mod_lt _ (by omega)
  omega

@[simp] theorem dchD_bne_colon (n : Nat) : (dchD n != ':') = true := by
  simp only [bne_iff_ne, ne_eq]
  exact dchD_ne n (by right; decide)

@[simp] theorem dchD_bne_dash (n : Nat) : (dchD n != '-') = true := by
  simp only [bne_iff_ne, ne_eq]
  exact dchD_ne n (by left; decide)

@[simp] theorem dchD_bne_dot (n : Nat) : (dchD n != '.') = true := by
  simp only [bne_iff_ne, ne_eq]
  exact dchD_ne n (by left; decide)

@[simp] theorem dchD_bne_plus (n : Nat) : (dchD n != '+') = true := by
  simp only [bne_iff_ne, ne_eq]
  exact dchD_ne n (by left; decide)

theorem string_data_append (a b : String) : (a ++ b).data = a.data ++ b.data := rfl

theorem stripTs_isoformat (t : UtcTime) :
    (stripTs (isoformat t)).data = strippedChars t := by
  simp [stripTs, pyRemoveAll, isoformat, pad4, pad2, pad6, pad4c, pad2c, pad6c,
    strippedChars, string_data_append]

theorem dchD_inj {a b : Nat} (h : dchD a = dchD b) : a % 10 = b % 10 := by
  have := congrArg Char.toNat h
  rw [dchD_toNat, dchD_toNat] at this
  omega

theorem pad2c_inj {a b : Nat} (ha : a < 100) (hb : b < 100)
    (h : pad2c a = pad2c b) : a = b := by
  simp only [pad2c, List.cons.injEq] at h
  obtain ⟨h1, h2, -⟩ := h
  have e1 := dchD_inj h1
  have e2 := dchD_inj h2
  omega

theorem pad4c_inj {a b : Nat} (ha : a < 10000) (hb : b < 10000)
    (h : pad4c a = pad4c b) : a = b := by
  simp only [pad4c, List.cons.injEq] at h
  obtain ⟨h1, h2, h3, h4, -⟩ := h
  have e1 := dchD_inj h1
  have e2 := dchD_inj h2
  have e3 := dchD_inj h3
  have e4 := dchD_inj h4
  omega

theorem pad6c_inj {a b : Nat} (ha : a < 1000000) (hb : b < 1000000)
    (h : pad6c a = pad6c b) : a = b := by
  simp only [pad6c, List.cons.injEq] at h
  obtain ⟨h1, h2, h3, h4, h5, h6, -⟩ := h
  have e1 := dchD_inj h1
  have e2 := dchD_inj h2
  have e3 := dchD_inj h3
  have e4 := dchD_inj h4
  have e5 := dchD_inj h5
  have e6 := dchD_inj h6
  omega

/-- Distinct valid instants keep distinct sanitised timestamps, hence
distinct history-record ids. -/
theorem stripTs_isoformat_inj {t t' : UtcTime} (ht : ValidTime t)
    (ht' : ValidTime t') (h : stripTs (isoformat t) = stripTs (isoformat t')) :
    t = t' := by
  obtain ⟨hy, hmo, hd, hh, hmi, hs, hus⟩ := ht
  obtain ⟨hy', hmo', hd', hh', hmi', hs', hus'⟩ := ht'
  have hdata := congrArg String.data h
  rw [stripTs_isoformat, stripTs_isoformat] at hdata
  unfold strippedChars at hdata
  simp only [List.append_assoc] at hdata
  obtain ⟨e1, hdata⟩ := List.append_inj hdata (by simp [pad4c])
  obtain ⟨e2, hdata⟩ := List.append_inj hdata (by simp [pad2c])
  obtain ⟨e3, hdata⟩ := List.append_inj hdata (by simp [pad2c])
  rw [List.cons.injEq] at hdata
  obtain ⟨-, hdata⟩ := hdata
  obtain ⟨e4, hdata⟩ := List.append_inj hdata (by simp [pad2c])
  obtain ⟨e5, hdata⟩ := List.append_inj hdata (by simp [pad2c])
  obtain ⟨e6, hdata⟩ := List.append_inj hdata (by simp [pad2c])
  obtain ⟨e7, -⟩ := List.append_inj hdata (by simp [pad6c])
  cases t
  cases t'
  simp only [UtcTime.mk.injEq]
  exact ⟨pad4c_inj hy hy' e1, pad2c_inj hmo hmo' e2, pad2c_inj hd hd' e3,
    pad2c_inj hh hh' e4, pad2c_inj hmi hmi' e5, pad2c_inj hs hs' e6,
    pad6c_inj hus hus' e7⟩

example : isoformat t0 = "2024-01-02T03:04:05.000006+00:00" := rfl
example : stripTs (isoformat t0) = "20240102T0304050000060000" := rfl
example : pySplitChar "EUR_USD" '_' = ["EUR", "USD"] := rfl
example : strHasChar "EURUSD" '_' = false := rfl
example : strContains "CoinGecko: boom" "ExchangeRate-API" = false := rfl
example : strContains "ExchangeRate-API: boom" "ExchangeRate-API" = true := rfl
example :
    (mkHistoryRecord "EUR_USD" 1 t0 "x").id = "EUR_USD_20240102T0304050000060000" := rfl


theorem load_obj (kvs : List (String × Json)) (t : UtcTime) :
    load_current_rates (.json (.obj kvs)) t =
      .ok (.obj (ensureKey (ensureKey kvs "pairs" (.obj []))
        "last_refresh" (.str (isoformat t)))) := by
  unfold load_current_rates jsonContains jsonSetKey ensureKey
  by_cases h1 : dictHasKey kvs "pairs" = true
  · simp only [h1, if_true]
    by_cases h2 : dictHasKey kvs "last_refresh" = true
    · simp [h1, h2]
    · simp [h1, h2, dictInsert_of_not_hasKey _ (Bool.not_eq_true _ ▸ h2)]
  · have h1f : dictHasKey kvs "pairs" = false := Bool.not_eq_true _ ▸ h1
    have step : dictInsert kvs "pairs" (.obj []) = kvs ++ [("pairs", Json.obj [])] :=
      dictInsert_of_not_hasKey _ h1f
    by_cases h2 : dictHasKey (kvs ++ [("pairs", Json.obj [])]) "last_refresh" = true
    · simp [h1f, step, h2]
    · have h2f := Bool.not_eq_true _ ▸ h2
      simp [h1f, step, h2, dictInsert_of_not_hasKey _ h2f]


theorem emptySnapshot_pairs (t : UtcTime) :
    dictLookup [("pairs", Json.obj []), ("last_refresh", Json.str (isoformat t))]
      "pairs" = some (Json.obj []) := rfl

theorem load_ok_pairs {fs : FileState} {ps : List (String × Json)} (t : UtcTime)
    (h : loadedSnapPairs fs = some ps) :
    ∃ kvs1, load_current_rates fs t = .ok (.obj kvs1) ∧
      dictLookup kvs1 "pairs" = some (.obj ps) := by
  cases fs with
  | absent =>
    refine ⟨_, rfl, ?_⟩
    simp only [loadedSnapPairs, Option.some.injEq] at h
    rw [← h]
    rfl
  | unreadable =>
    refine ⟨_, rfl, ?_⟩
    simp only [loadedSnapPairs, Option.some.injEq] at h
    rw [← h]
    rfl
  | malformed =>
    refine ⟨_, rfl, ?_⟩
    simp only [loadedSnapPairs, Option.some.injEq] at h
    rw [← h]
    rfl
  | json v =>
    cases v with
    | obj kvs =>
      rw [load_obj]
      refine ⟨_, rfl, ?_⟩
      simp only [loadedSnapPairs] at h
      cases hlk : dictLookup kvs "pairs" with
      | none =>
        rw [hlk] at h
        simp only [Option.some.injEq] at h
        have hk : dictHasKey kvs "pairs" = false := by
          rw [dictHasKey_eq_isSome, hlk]; rfl
        rw [← h]
        unfold ensureKey
        rw [hk]
        simp only [Bool.false_eq_true, if_false]
        have base : dictLookup (kvs ++ [("pairs", Json.obj [])]) "pairs" =
            some (Json.obj []) := by
          rw [dictLookup_append_right _ hk]; rfl
        by_cases h2 : dictHasKey (kvs ++ [("pairs", Json.obj [])]) "last_refresh" = true
        · rw [if_pos h2]; exact base
        · rw [if_neg h2]
          exact dictLookup_append_left _ base
      | some pv =>
        rw [hlk] at h
        cases pv with
        | obj ps0 =>
          simp only [Option.some.injEq] at h
          subst h
          have hk : dictHasKey kvs "pairs" = true := by
            rw [dictHasKey_eq_isSome, hlk]; rfl
          unfold ensureKey
          rw [hk]
          simp only [if_true]
          by_cases h2 : dictHasKey kvs "last_refresh" = true
          · rw [if_pos h2]; exact hlk
          · rw [if_neg h2]
            exact dictLookup_append_left _ hlk
        | null => simp at h
        | bool b => simp at h
        | num q => simp at h
        | str s => simp at h
        | arr xs => simp at h
    | null => simp [loadedSnapPairs] at h
    | bool b => simp [loadedSnapPairs] at h
    | num q => simp [loadedSnapPairs] at h
    | str s => simp [loadedSnapPairs] at h
    | arr xs => simp [loadedSnapPairs] at h


theorem setQuotesLoop_obj (nowS lbl : String) (rates : List (String × ℚ)) :
    ∀ (kvs ps : List (String × Json)),
      dictLookup kvs "pairs" = some (.obj ps) →
      ∃ kvs2, setQuotesLoop nowS lbl (.obj kvs) rates = .ok (.obj kvs2) ∧
        dictLookup kvs2 "pairs" = some (.obj (rates.foldl
          (fun acc x => dictInsert acc x.1 (quoteJson x.2 nowS lbl)) ps)) ∧
        ∀ k, k ≠ "pairs" → dictLookup kvs2 k = dictLookup kvs k := by
  induction rates with
  | nil =>
    intro kvs ps h
    exact ⟨kvs, rfl, by simpa using h, fun _ _ => rfl⟩
  | cons pr rest ih =>
    intro kvs ps h
    have hstep : setPairQuote (.obj kvs) pr.1 (quoteJson pr.2 nowS lbl) =
        .ok (.obj (dictInsert kvs "pairs"
          (.obj (dictInsert ps pr.1 (quoteJson pr.2 nowS lbl))))) := by
      simp only [setPairQuote]
      rw [h]
    have hlk1 : dictLookup (dictInsert kvs "pairs"
        (.obj (dictInsert ps pr.1 (quoteJson pr.2 nowS lbl)))) "pairs" =
        some (.obj (dictInsert ps pr.1 (quoteJson pr.2 nowS lbl))) :=
      dictLookup_insert_self _ _ _
    obtain ⟨kvs2, hloop, hpairs, hother⟩ := ih _ _ hlk1
    refine ⟨kvs2, ?_, ?_, ?_⟩
    · show setQuotesLoop nowS lbl (.obj kvs) (pr :: rest) = .ok (.obj kvs2)
      unfold setQuotesLoop
      rw [hstep]
      exact hloop
    · rw [hpairs]
      rfl
    · intro k hk
      rw [hother k hk, dictLookup_insert_other _ _ hk]

theorem save_ok {st : Store} {ps : List (String × Json)} (t : UtcTime)
    (rates : List (String × ℚ)) (lbl : String)
    (h : loadedSnapPairs st.ratesFile = some ps) :
    ∃ kvsF, save_current_rates st t rates lbl =
        .ok ⟨.json (.obj kvsF), st.historyFile⟩ ∧
      dictLookup kvsF "pairs" = some (.obj (rates.foldl
        (fun acc x => dictInsert acc x.1 (quoteJson x.2 (isoformat t) lbl)) ps)) ∧
      dictLookup kvsF "last_refresh" = some (.str (isoformat t)) := by
  obtain ⟨kvs1, hload, hpairs1⟩ := load_ok_pairs t h
  obtain ⟨kvs2, hloop, hpairs2, hother2⟩ := setQuotesLoop_obj (isoformat t) lbl rates kvs1 ps hpairs1
  refine ⟨dictInsert kvs2 "last_refresh" (.str (isoformat t)), ?_, ?_, ?_⟩
  · simp only [save_current_rates, hload, hloop, jsonSetKey]
  · rw [dictLookup_insert_other _ _ (by decide)]
    exact hpairs2
  · exact dictLookup_insert_self _ _ _


theorem save_err_of_none {st : Store} (t : UtcTime) {rates : List (String × ℚ)}
    (lbl : String) (h : loadedSnapPairs st.ratesFile = none) (hne : rates ≠ []) :
    save_current_rates st t rates lbl = .error .typeError := by
  obtain ⟨r, rest, rfl⟩ : ∃ r rest, rates = r :: rest := by
    cases rates with
    | nil => exact absurd rfl hne
    | cons a b => exact ⟨a, b, rfl⟩
  obtain ⟨rfil, hist⟩ := st
  simp only at h
  cases rfil with
  | absent => simp [loadedSnapPairs] at h
  | unreadable => simp [loadedSnapPairs] at h
  | malformed => simp [loadedSnapPairs] at h
  | json v =>
    cases v with
    | obj kvs =>
      simp only [loadedSnapPairs] at h
      cases hlk : dictLookup kvs "pairs" with
      | none => rw [hlk] at h; simp at h
      | some pv =>
        rw [hlk] at h
        have hk : dictHasKey kvs "pairs" = true := by
          rw [dictHasKey_eq_isSome, hlk]; rfl
        have hload := load_obj kvs t
        have hpairs1 : dictLookup (ensureKey (ensureKey kvs "pairs" (.obj []))
            "last_refresh" (.str (isoformat t))) "pairs" = some pv := by
          unfold ensureKey
          rw [hk]
          simp only [if_true]
          by_cases h2 : dictHasKey kvs "last_refresh" = true
          · rw [if_pos h2]; exact hlk
          · rw [if_neg h2]; exact dictLookup_append_left _ hlk
        have hstep : setPairQuote (.obj (ensureKey (ensureKey kvs "pairs" (.obj []))
            "last_refresh" (.str (isoformat t)))) r.1 (quoteJson r.2 (isoformat t) lbl) =
            .error .typeError := by
          simp only [setPairQuote]
          rw [hpairs1]
          cases pv with
          | obj ps0 => simp at h
          | null => rfl
          | bool b => rfl
          | num q => rfl
          | str s => rfl
          | arr xs => rfl
        simp only [save_current_rates, hload, setQuotesLoop, hstep]
    | null => simp [save_current_rates, load_current_rates, jsonContains]
    | bool b => simp [save_current_rates, load_current_rates, jsonContains]
    | num q => simp [save_current_rates, load_current_rates, jsonContains]
    | arr xs =>
      by_cases c1 : (xs.any fun x => match x with | Json.str s => s == "pairs" | _ => false) = true
      · by_cases c2 : (xs.any fun x => match x with | Json.str s => s == "last_refresh" | _ => false) = true
        · simp [save_current_rates, load_current_rates, jsonContains, c1, c2,
            setQuotesLoop, setPairQuote]
        · simp [save_current_rates, load_current_rates, jsonContains, jsonSetKey, c1, c2]
      · simp [save_current_rates, load_current_rates, jsonContains, jsonSetKey, c1]
    | str s =>
      by_cases c1 : strContains s "pairs" = true
      · by_cases c2 : strContains s "last_refresh" = true
        · simp [save_current_rates, load_current_rates, jsonContains, c1, c2,
            setQuotesLoop, setPairQuote]
        · simp [save_current_rates, load_current_rates, jsonContains, jsonSetKey, c1, c2]
      · simp [save_current_rates, load_current_rates, jsonContains, jsonSetKey, c1]


theorem strHasChar_nil (c : Char) : strHasChar "" c = false := rfl

theorem append_ok_of_sep (st : Store) (t : UtcTime) {pair : String} (rate : ℚ)
    (source : String) (h : strHasChar pair '_' = true) :
    append_to_history st t pair rate source =
      .ok { st with historyFile := .jsonArr (load_history st.historyFile ++
        [mkHistoryRecord pair rate t source]) } := by
  unfold append_to_history
  rw [if_neg]
  rintro (h1 | h1)
  · rw [h1] at h
    exact absurd h (by decide)
  · rw [h] at h1
    exact absurd h1 (by decide)

theorem append_ok_inv {st st' : Store} {t : UtcTime} {pair : String} {rate : ℚ}
    {source : String} (h : append_to_history st t pair rate source = .ok st') :
    st'.ratesFile = st.ratesFile ∧
      st'.historyFile = .jsonArr (load_history st.historyFile ++
        [mkHistoryRecord pair rate t source]) := by
  unfold append_to_history at h
  split at h
  · exact absurd h (by simp)
  · simp only [Except.ok.injEq] at h
    subst h
    exact ⟨rfl, rfl⟩

theorem appendAllTick_ratesFile (clock : Nat → UtcTime) (lbl : String) :
    ∀ (rates : List (String × ℚ)) (st : Store) (tick : Nat),
      (appendAllTick clock lbl st tick rates).1.ratesFile = st.ratesFile := by
  intro rates
  induction rates with
  | nil => intro st tick; rfl
  | cons pr rest ih =>
    intro st tick
    obtain ⟨p, r⟩ := pr
    simp only [appendAllTick]
    cases happ : append_to_history st (clock tick) p r lbl with
    | error e => rfl
    | ok st' =>
      rw [ih st' (tick + 1)]
      exact (append_ok_inv happ).1

theorem appendAllTick_ok (clock : Nat → UtcTime) (lbl : String) :
    ∀ (rates : List (String × ℚ)) (st : Store) (tick : Nat),
      (∀ pr ∈ rates, strHasChar pr.1 '_' = true) →
      ∃ st' tick', appendAllTick clock lbl st tick rates = (st', tick', none) ∧
        st'.ratesFile = st.ratesFile := by
  intro rates
  induction rates with
  | nil => intro st tick _; exact ⟨st, tick, rfl, rfl⟩
  | cons pr rest ih =>
    intro st tick hsep
    obtain ⟨p, r⟩ := pr
    have hp : strHasChar p '_' = true := hsep (p, r) (by simp)
    have happ := append_ok_of_sep st (clock tick) r lbl hp
    simp only [appendAllTick, happ]
    obtain ⟨st', tick', heq, hrf⟩ :=
      ih _ (tick + 1) (fun pr hpr => hsep pr (List.mem_cons_of_mem _ hpr))
    exact ⟨st', tick', heq, hrf⟩

theorem runAdapter_error_eq (clock : Nat → UtcTime) (lbl m : String)
    (acc : CycleAcc) :
    runAdapter clock lbl (.error m) acc =
      { acc with suc := false, errs := acc.errs ++ [lbl ++ ": " ++ m] } := rfl

theorem runAdapter_ok_eq (clock : Nat → UtcTime) (lbl : String)
    (rates : List (String × ℚ)) (acc : CycleAcc) :
    runAdapter clock lbl (.ok rates) acc =
      match appendAllTick clock lbl acc.st acc.tick rates with
      | (st', tick', none) =>
        { acc with st := st', tick := tick', up := dictUpdate acc.up rates }
      | (st', tick', some e) =>
        { st := st', tick := tick', up := acc.up,
          errs := acc.errs ++ [lbl ++ ": " ++ pyStr e], suc := false } := rfl

theorem runAdapter_inv (clock : Nat → UtcTime) (lbl : String)
    (f : Except String (List (String × ℚ))) (acc : CycleAcc)
    (h : acc.suc = acc.errs.isEmpty) :
    (runAdapter clock lbl f acc).suc = (runAdapter clock lbl f acc).errs.isEmpty := by
  cases f with
  | error m => simp [runAdapter_error_eq]
  | ok rates =>
    rw [runAdapter_ok_eq]
    rcases h3 : appendAllTick clock lbl acc.st acc.tick rates with ⟨st', tick', oe⟩
    cases oe with
    | none => simpa using h
    | some e => simp

theorem runAdapter_ratesFile (clock : Nat → UtcTime) (lbl : String)
    (f : Except String (List (String × ℚ))) (acc : CycleAcc) :
    (runAdapter clock lbl f acc).st.ratesFile = acc.st.ratesFile := by
  cases f with
  | error m => rfl
  | ok rates =>
    rw [runAdapter_ok_eq]
    rcases h3 : appendAllTick clock lbl acc.st acc.tick rates with ⟨st', tick', oe⟩
    have := appendAllTick_ratesFile clock lbl rates acc.st acc.tick
    rw [h3] at this
    cases oe with
    | none => simpa using this
    | some e => simpa using this

theorem runAdapter_upNodup (clock : Nat → UtcTime) (lbl : String)
    (f : Except String (List (String × ℚ))) (acc : CycleAcc)
    (h : (acc.up.map Prod.fst).Nodup) :
    ((runAdapter clock lbl f acc).up.map Prod.fst).Nodup := by
  cases f with
  | error m => simpa using h
  | ok rates =>
    rw [runAdapter_ok_eq]
    rcases h3 : appendAllTick clock lbl acc.st acc.tick rates with ⟨st', tick', oe⟩
    cases oe with
    | none => simpa using dictUpdate_keysNodup rates acc.up h
    | some e => simpa using h

theorem cycleAcc_inv (src : Option String)
    (c f : Except String (List (String × ℚ))) (clock : Nat → UtcTime) (st : Store) :
    (cycleAcc src c f clock st).suc = (cycleAcc src c f clock st).errs.isEmpty := by
  unfold cycleAcc
  by_cases h1 : src = none ∨ src = some "coingecko" <;>
    by_cases h2 : src = none ∨ src = some "exchangerate" <;>
      simp only [h1, h2, if_true, if_false] <;>
        first
        | exact runAdapter_inv _ _ _ _ (runAdapter_inv _ _ _ _ rfl)
        | exact runAdapter_inv _ _ _ _ rfl
        | rfl

theorem cycleAcc_ratesFile (src : Option String)
    (c f : Except String (List (String × ℚ))) (clock : Nat → UtcTime) (st : Store) :
    (cycleAcc src c f clock st).st.ratesFile = st.ratesFile := by
  unfold cycleAcc
  by_cases h1 : src = none ∨ src = some "coingecko" <;>
    by_cases h2 : src = none ∨ src = some "exchangerate" <;>
      simp only [h1, h2, if_true, if_false] <;>
        first
        | rw [runAdapter_ratesFile, runAdapter_ratesFile]
        | rw [runAdapter_ratesFile]

theorem cycleAcc_upNodup (src : Option String)
    (c f : Except String (List (String × ℚ))) (clock : Nat → UtcTime) (st : Store) :
    ((cycleAcc src c f clock st).up.map Prod.fst).Nodup := by
  unfold cycleAcc
  by_cases h1 : src = none ∨ src = some "coingecko" <;>
    by_cases h2 : src = none ∨ src = some "exchangerate" <;>
      simp only [h1, h2, if_true, if_false] <;>
        first
        | exact runAdapter_upNodup _ _ _ _ (runAdapter_upNodup _ _ _ _ (by simp))
        | exact runAdapter_upNodup _ _ _ _ (by simp)
        | simp


/-- C2 (amended): `load_current_rates` returns the empty snapshot (with the
current time) when the file is absent, unreadable or fails to parse, and
never raises in those cases; when the file parses as a JSON object it
returns the object with the `pairs` and `last_refresh` keys defaulted.
(Content parsing as non-object JSON can raise, see the counterexample.) -/
theorem C2_load_graceful (t : UtcTime) :
    load_current_rates .absent t = .ok (emptySnapshot t) ∧
    load_current_rates .unreadable t = .ok (emptySnapshot t) ∧
    load_current_rates .malformed t = .ok (emptySnapshot t) ∧
    ∀ kvs, load_current_rates (.json (.obj kvs)) t =
      .ok (.obj (ensureKey (ensureKey kvs "pairs" (.obj []))
        "last_refresh" (.str (isoformat t)))) :=
  ⟨rfl, rfl, rfl, fun kvs => load_obj kvs t⟩

/-- C2 counterexample: a snapshot file holding the JSON array `[]` parses
but is not an object, and `load_current_rates` raises an uncaught
`TypeError` on it instead of returning an empty snapshot. -/
theorem C2_counterexample :
    load_current_rates (.json (.arr [])) t0 = .error .typeError := rfl

/-- C4 (amended): a pair without the `_` separator (including `""`) makes
`append_to_history` fail with the builtin `ValueError` — not the
repository's `ValidationError` class — leaving the store unchanged, and a
pair with the separator appends exactly one record. -/
theorem C4_append_requires_separator (st : Store) (t : UtcTime) (pair : String)
    (rate : ℚ) (source : String) :
    (strHasChar pair '_' = false →
      append_to_history st t pair rate source =
        .error (.valueError ("Некорректный формат пары валют: " ++ pair))) ∧
    (strHasChar pair '_' = true →
      append_to_history st t pair rate source =
        .ok { st with historyFile := .jsonArr (load_history st.historyFile ++
          [mkHistoryRecord pair rate t source]) }) := by
  constructor
  · intro h
    unfold append_to_history
    rw [if_pos (Or.inr h)]
  · exact append_ok_of_sep st t rate source

/-- C4 counterexample: the exception raised for the malformed pair
`"EURUSD"` is the builtin `ValueError`, not the repository's
`ValidationError` class named by the claim. -/
theorem C4_counterexample :
    append_to_history st0 t0 "EURUSD" 1 "CoinGecko" =
        .error (.valueError "Некорректный формат пары валют: EURUSD") ∧
      raisedValidationError (append_to_history st0 t0 "EURUSD" 1 "CoinGecko") = false :=
  ⟨rfl, rfl⟩

/-- Witness for C4 at the malformed pair `"EURUSD"` and the well-formed
pair `"EUR_USD"`. -/
theorem C4_witness :
    (strHasChar "EURUSD" '_' = false ∧
      append_to_history st0 t0 "EURUSD" 1 "x" =
        .error (.valueError "Некорректный формат пары валют: EURUSD")) ∧
    (strHasChar "EUR_USD" '_' = true ∧
      append_to_history st0 t0 "EUR_USD" 1 "x" =
        .ok { st0 with historyFile := .jsonArr (load_history st0.historyFile ++
          [mkHistoryRecord "EUR_USD" 1 t0 "x"]) }) :=
  ⟨⟨rfl, (C4_append_requires_separator st0 t0 "EURUSD" 1 "x").1 rfl⟩,
   ⟨rfl, (C4_append_requires_separator st0 t0 "EUR_USD" 1 "x").2 rfl⟩⟩

/-- C5: a returned `UpdateResult` has `success = true` exactly when
`errors` is empty, and `updated_pairs` can be non-empty with
`success = false` (crypto fails, forex succeeds). -/
theorem C5_success_iff_errors_empty :
    (∀ (src : Option String) (c f : Except String (List (String × ℚ)))
        (clock : Nat → UtcTime) (st : Store) (p : UpdateResult × Store),
      run_update src c f clock st = .ok p →
      (p.1.success = true ↔ p.1.errors = [])) ∧
    ∃ p, run_update none (.error "boom") (.ok [("EUR_USD", 2)]) clk0 st0 = .ok p ∧
      p.1.updated_pairs ≠ [] ∧ p.1.success = false := by
  constructor
  · intro src c f clock st p h
    have hinv := cycleAcc_inv src c f clock st
    unfold run_update finishCycle at h
    split at h
    · rw [Except.ok.injEq] at h
      subst h
      dsimp only
      rw [hinv]
      exact List.isEmpty_iff
    · split at h
      · exact absurd h (by simp)
      · rw [Except.ok.injEq] at h
        subst h
        dsimp only
        rw [hinv]
        exact List.isEmpty_iff
  · exact ⟨_, rfl, by decide, rfl⟩

/-- Witness for C5 on a run with both adapters enabled, the crypto fetch
failing and the forex fetch succeeding. -/
theorem C5_witness :
    (run_update none (.error "boom") (.ok [("EUR_USD", 2)]) clk0 st0 =
      .ok (⟨false, [("EUR_USD", 2)], ["CoinGecko: boom"], isoformat t0⟩,
        ⟨.json (.obj [("pairs", .obj [("EUR_USD",
            quoteJson 2 (isoformat t0) "ExchangeRate-API")]),
          ("last_refresh", .str (isoformat t0))]),
         .jsonArr [mkHistoryRecord "EUR_USD" 2 t0 "ExchangeRate-API"]⟩)) ∧
    (false = true ↔ (["CoinGecko: boom"] : List String) = []) :=
  ⟨rfl, C5_success_iff_errors_empty.1 none (.error "boom") (.ok [("EUR_USD", 2)])
    clk0 st0 _ rfl⟩

/-- C10: a source selector other than `"coingecko"`/`"exchangerate"` runs
no adapter and returns a successful empty result with the store
untouched. -/
theorem C10_unknown_source_noop (s : String)
    (c f : Except String (List (String × ℚ))) (clock : Nat → UtcTime)
    (st : Store) (h1 : s ≠ "coingecko") (h2 : s ≠ "exchangerate") :
    run_update (some s) c f clock st =
      .ok (⟨true, [], [], isoformat (clock 0)⟩, st) := by
  have hc1 : ¬(some s = none ∨ some s = some "coingecko") := by simp [h1]
  have hc2 : ¬(some s = none ∨ some s = some "exchangerate") := by simp [h2]
  simp [run_update, finishCycle, cycleAcc, h1, h2]

/-- Witness for C10 at the unknown selector `"binance"`. -/
theorem C10_witness :
    ("binance" ≠ "coingecko" ∧ "binance" ≠ "exchangerate") ∧
    run_update (some "binance") (.ok [("BTC_USD", 3)]) (.ok [("EUR_USD", 2)])
      clk0 st0 = .ok (⟨true, [], [], isoformat t0⟩, st0) :=
  ⟨⟨by decide, by decide⟩,
   C10_unknown_source_noop "binance" _ _ clk0 st0 (by decide) (by decide)⟩


/-- Unfolding `is_rate_cache_fresh` at a string argument. -/
theorem is_rate_cache_fresh_str (parse : String → Option ℚ) (now : ℚ)
    (s : String) (ttl : ℤ) :
    is_rate_cache_fresh parse now (.pystr s) ttl =
      match parse (pyReplaceZ s) with
      | none => .ok false
      | some updated => .ok (decide (now - updated < (ttl : ℚ))) := rfl

/-- C7: for a parseable timestamp `T`, the freshness check returns true
exactly when `now - T < ttl_seconds`, and returns false at
`now = T + ttl_seconds` (exact equality is not fresh). -/
theorem C7_freshness_boundary (parse : String → Option ℚ) (now T : ℚ)
    (s : String) (ttl : ℤ) (hp : parse (pyReplaceZ s) = some T) :
    (is_rate_cache_fresh parse now (.pystr s) ttl = .ok true ↔
      now - T < (ttl : ℚ)) ∧
    (now = T + (ttl : ℚ) → is_rate_cache_fresh parse now (.pystr s) ttl = .ok false) := by
  rw [is_rate_cache_fresh_str, hp]
  constructor
  · constructor
    · intro h
      simpa using h
    · intro h
      simp [h]
  · intro h
    subst h
    simp

/-- Witness for C7 at `T = 1`, `ttl = 5`, evaluated at `now = 3` (fresh)
and at `now = T + ttl = 6` (not fresh). -/
theorem C7_witness :
    ((fun _ : String => some (1 : ℚ)) (pyReplaceZ "x") = some 1) ∧
    ((is_rate_cache_fresh (fun _ => some 1) 3 (.pystr "x") 5 = .ok true ↔
        (3 : ℚ) - 1 < ((5 : ℤ) : ℚ)) ∧
      ((3 : ℚ) = 1 + ((5 : ℤ) : ℚ) →
        is_rate_cache_fresh (fun _ => some 1) 3 (.pystr "x") 5 = .ok false)) :=
  ⟨rfl, C7_freshness_boundary (fun _ => some 1) 3 1 "x" 5 rfl⟩

/-- C9 (amended): a string that does not parse as an ISO-8601 datetime
makes `is_rate_cache_fresh` return false rather than raise; but a `None`
argument raises an uncaught `AttributeError` (only `ValueError` and
`TypeError` are caught, and `None.replace` raises `AttributeError`). -/
theorem C9_nonparseable_not_fresh (parse : String → Option ℚ) (now : ℚ)
    (ttl : ℤ) :
    (∀ s : String, parse (pyReplaceZ s) = none →
      is_rate_cache_fresh parse now (.pystr s) ttl = .ok false) ∧
    is_rate_cache_fresh parse now .pynone ttl = .error .attributeError := by
  refine ⟨fun s hp => ?_, rfl⟩
  rw [is_rate_cache_fresh_str, hp]

/-- C9 counterexample: at the argument `None` the freshness check raises
`AttributeError` instead of returning false. -/
theorem C9_counterexample :
    is_rate_cache_fresh (fun _ => none) 0 .pynone 300 = .error .attributeError ∧
      is_rate_cache_fresh (fun _ => none) 0 .pynone 300 ≠ .ok false :=
  ⟨rfl, fun h => Except.noConfusion h⟩

/-- Witness for C9 with a parser that rejects everything. -/
theorem C9_witness :
    ((fun _ : String => (none : Option ℚ)) (pyReplaceZ "not-a-date") =
      (none : Option ℚ)) ∧
    is_rate_cache_fresh (fun _ => none) 0 (.pystr "not-a-date") 300 = .ok false ∧
    is_rate_cache_fresh (fun _ => none) 0 .pynone 300 = .error .attributeError :=
  ⟨rfl, (C9_nonparseable_not_fresh (fun _ => none) 0 300).1 "not-a-date" rfl,
    (C9_nonparseable_not_fresh (fun _ => none) 0 300).2⟩


theorem cycleAcc_none_eq (c f : Except String (List (String × ℚ)))
    (clock : Nat → UtcTime) (st : Store) :
    cycleAcc none c f clock st =
      runAdapter clock "ExchangeRate-API" f
        (runAdapter clock "CoinGecko" c ⟨st, 1, [], [], true⟩) := by
  simp [cycleAcc]

/-- C1: if the crypto fetch raises and the forex fetch succeeds with at
least one pair, `run_update()` reports `success = False` with exactly the
one crypto error and `updated_pairs` equal to the forex pairs, and the
snapshot afterwards maps each forex pair to its freshly written quote
while every other pair keeps exactly the quote it had before the call.
The hypotheses `hsep`/`hnd` hold for every dict the forex adapter can
return (pairs are `CODE_USD` keys of a dict); `hsnap` says the snapshot
file on disk is one the save path can read back. -/
theorem C1_partial_failure_isolation (m : String) (fp : List (String × ℚ))
    (clock : Nat → UtcTime) (st : Store) (ps : List (String × Json))
    (hne : fp ≠ [])
    (hsep : ∀ pr ∈ fp, strHasChar pr.1 '_' = true)
    (hnd : (fp.map Prod.fst).Nodup)
    (hsnap : loadedSnapPairs st.ratesFile = some ps) :
    ∃ res st', run_update none (.error m) (.ok fp) clock st = .ok (res, st') ∧
      res.success = false ∧
      res.errors = ["CoinGecko: " ++ m] ∧
      res.updated_pairs = fp ∧
      ∃ (tS lbl : String) (kvsF psF : List (String × Json)),
        st'.ratesFile = .json (.obj kvsF) ∧
        dictLookup kvsF "pairs" = some (.obj psF) ∧
        (∀ pr ∈ fp, dictLookup psF pr.1 = some (quoteJson pr.2 tS lbl)) ∧
        (∀ q, q ∉ fp.map Prod.fst → dictLookup psF q = dictLookup ps q) := by
  have hacc1 : runAdapter clock "CoinGecko" (.error m) ⟨st, 1, [], [], true⟩ =
      ⟨st, 1, [], ["CoinGecko: " ++ m], false⟩ := rfl
  obtain ⟨st1, tick1, happ, hrf⟩ := appendAllTick_ok clock "ExchangeRate-API" fp st 1 hsep
  have hacc2 : cycleAcc none (.error m) (.ok fp) clock st =
      ⟨st1, tick1, dictUpdate [] fp, ["CoinGecko: " ++ m], false⟩ := by
    rw [cycleAcc_none_eq, hacc1, runAdapter_ok_eq]
    dsimp only
    rw [happ]
  have hup : dictUpdate ([] : List (String × ℚ)) fp = fp :=
    dictUpdate_nil_of_nodup fp hnd
  have hsnap1 : loadedSnapPairs st1.ratesFile = some ps := by rw [hrf]; exact hsnap
  obtain ⟨kvsF, hsave, hpairsF, hlrF⟩ :=
    save_ok (clock tick1) fp
      (sourceNameOf ["CoinGecko: " ++ m]) hsnap1
  refine ⟨⟨false, fp, ["CoinGecko: " ++ m], isoformat (clock 0)⟩,
    ⟨.json (.obj kvsF), st1.historyFile⟩, ?_, rfl, rfl, rfl, ?_⟩
  · unfold run_update finishCycle
    rw [hacc2]
    dsimp only
    rw [hup, if_neg hne, hsave]
  · refine ⟨isoformat (clock tick1), sourceNameOf ["CoinGecko: " ++ m], kvsF,
      fp.foldl (fun acc x => dictInsert acc x.1
        (quoteJson x.2 (isoformat (clock tick1)) (sourceNameOf ["CoinGecko: " ++ m]))) ps,
      rfl, hpairsF, ?_, ?_⟩
    · intro pr hpr
      exact foldInsert_lookup_mem
        (fun k v => quoteJson v (isoformat (clock tick1)) (sourceNameOf ["CoinGecko: " ++ m]))
        fp ps hnd pr hpr
    · intro q hq
      exact foldInsert_lookup_not_mem
        (fun k v => quoteJson v (isoformat (clock tick1)) (sourceNameOf ["CoinGecko: " ++ m]))
        fp ps q hq


/-- Witness for C1: crypto fails with `"boom"`, forex returns one pair,
starting from an absent snapshot file. -/
theorem C1_witness :
    (([("EUR_USD", (2 : ℚ))] : List (String × ℚ)) ≠ [] ∧
      (∀ pr ∈ ([("EUR_USD", (2 : ℚ))] : List (String × ℚ)), strHasChar pr.1 '_' = true) ∧
      (([("EUR_USD", (2 : ℚ))] : List (String × ℚ)).map Prod.fst).Nodup ∧
      loadedSnapPairs st0.ratesFile = some []) ∧
    (∃ res st', run_update none (.error "boom") (.ok [("EUR_USD", 2)]) clk0 st0 =
        .ok (res, st') ∧
      res.success = false ∧
      res.errors = ["CoinGecko: " ++ "boom"] ∧
      res.updated_pairs = [("EUR_USD", 2)] ∧
      ∃ (tS lbl : String) (kvsF psF : List (String × Json)),
        st'.ratesFile = .json (.obj kvsF) ∧
        dictLookup kvsF "pairs" = some (.obj psF) ∧
        (∀ pr ∈ ([("EUR_USD", (2 : ℚ))] : List (String × ℚ)),
          dictLookup psF pr.1 = some (quoteJson pr.2 tS lbl)) ∧
        (∀ q, q ∉ ([("EUR_USD", (2 : ℚ))] : List (String × ℚ)).map Prod.fst →
          dictLookup psF q = dictLookup ([] : List (String × Json)) q)) :=
  ⟨⟨by decide, by decide, by decide, rfl⟩,
   C1_partial_failure_isolation "boom" [("EUR_USD", 2)] clk0 st0 []
     (by decide) (by decide) (by decide) rfl⟩


/-- C3 (amended): the snapshot write is skipped exactly when
`updated_pairs` is empty; when a write happens, every written quote
carries the label `sourceNameOf errors`: the combined label when `errors`
is empty, `"ParserService"` with two or more errors, and with exactly one
error the label chosen by substring-matching `"ExchangeRate-API"` against
the error text — which names the other adapter except when the crypto
error message itself mentions `ExchangeRate-API`. -/
theorem C3_write_skip_and_label (src : Option String)
    (c f : Except String (List (String × ℚ))) (clock : Nat → UtcTime)
    (st : Store) (res : UpdateResult) (st' : Store)
    (h : run_update src c f clock st = .ok (res, st')) :
    (res.updated_pairs = [] → st'.ratesFile = st.ratesFile) ∧
    (res.updated_pairs ≠ [] →
      ∃ (t : UtcTime) (kvsF psF : List (String × Json)),
        st'.ratesFile = .json (.obj kvsF) ∧
        dictLookup kvsF "last_refresh" = some (.str (isoformat t)) ∧
        dictLookup kvsF "pairs" = some (.obj psF) ∧
        ∀ pr ∈ res.updated_pairs,
          dictLookup psF pr.1 =
            some (quoteJson pr.2 (isoformat t) (sourceNameOf res.errors))) := by
  have hrates := cycleAcc_ratesFile src c f clock st
  have hnd := cycleAcc_upNodup src c f clock st
  unfold run_update finishCycle at h
  split at h
  · rename_i hup
    rw [Except.ok.injEq, Prod.mk.injEq] at h
    obtain ⟨hres, hst⟩ := h
    subst hres
    subst hst
    exact ⟨fun _ => hrates, fun hne => absurd hup hne⟩
  · rename_i hup
    split at h
    · exact absurd h (by simp)
    · rename_i st'' hsv
      rw [Except.ok.injEq, Prod.mk.injEq] at h
      obtain ⟨hres, hst⟩ := h
      subst hres
      subst hst
      refine ⟨fun he => absurd he hup, fun _ => ?_⟩
      cases hl : loadedSnapPairs (cycleAcc src c f clock st).st.ratesFile with
      | none =>
        rw [save_err_of_none _ _ hl hup] at hsv
        exact absurd hsv (by simp)
      | some ps =>
        obtain ⟨kvsF, hsave, hpairsF, hlrF⟩ :=
          save_ok (clock (cycleAcc src c f clock st).tick)
            (cycleAcc src c f clock st).up
            (sourceNameOf (cycleAcc src c f clock st).errs) hl
        rw [hsave, Except.ok.injEq] at hsv
        subst hsv
        refine ⟨clock (cycleAcc src c f clock st).tick, kvsF, _, rfl, hlrF,
          hpairsF, ?_⟩
        intro pr hpr
        dsimp only
        exact foldInsert_lookup_mem
          (fun k v => quoteJson v (isoformat (clock (cycleAcc src c f clock st).tick))
            (sourceNameOf (cycleAcc src c f clock st).errs)) _ ps hnd pr hpr

/-- C3 counterexample: the crypto adapter fails with a message that
contains the string `ExchangeRate-API`, the forex adapter succeeds, so
`errors` has exactly one entry — yet the written source label is
`"CoinGecko"`, the name of the adapter that failed, not the other
adapter's name as the claim requires. -/
theorem C3_counterexample :
    ∃ res st', run_update none (.error "ExchangeRate-API")
        (.ok [("EUR_USD", 2)]) clk0 st0 = .ok (res, st') ∧
      res.errors.length = 1 ∧
      (∃ kvsF psF, st'.ratesFile = .json (.obj kvsF) ∧
        dictLookup kvsF "pairs" = some (.obj psF) ∧
        dictLookup psF "EUR_USD" = some (quoteJson 2 (isoformat t0) "CoinGecko")) ∧
      "CoinGecko" ≠ "ExchangeRate-API" :=
  ⟨_, _, rfl, rfl, ⟨_, _, rfl, rfl, rfl⟩, by decide⟩

/-- Witness for C3 on a run whose crypto fetch fails (message without the
other adapter's name) and whose forex fetch returns one pair. -/
theorem C3_witness :
    ∃ p, run_update none (.error "boom") (.ok [("EUR_USD", 2)]) clk0 st0 = .ok p ∧
      ((p.1.updated_pairs = [] → p.2.ratesFile = st0.ratesFile) ∧
      (p.1.updated_pairs ≠ [] →
        ∃ (t : UtcTime) (kvsF psF : List (String × Json)),
          p.2.ratesFile = .json (.obj kvsF) ∧
          dictLookup kvsF "last_refresh" = some (.str (isoformat t)) ∧
          dictLookup kvsF "pairs" = some (.obj psF) ∧
          ∀ pr ∈ p.1.updated_pairs,
            dictLookup psF pr.1 =
              some (quoteJson pr.2 (isoformat t) (sourceNameOf p.1.errors)))) :=
  ⟨_, rfl, C3_write_skip_and_label none (.error "boom") (.ok [("EUR_USD", 2)])
    clk0 st0 _ _ rfl⟩


theorem string_append_left_cancel {a s1 s2 : String} (h : a ++ s1 = a ++ s2) :
    s1 = s2 := by
  have hd := congrArg String.data h
  rw [string_data_append, string_data_append] at hd
  exact congrArg String.mk (List.append_cancel_left hd)

theorem appendMany_ok (pair source : String) (hsep : strHasChar pair '_' = true) :
    ∀ (fetches : List (ℚ × UtcTime)) (rf : FileState) (h0 : List HistoryRecord),
      appendMany pair source ⟨rf, .jsonArr h0⟩ fetches =
        .ok ⟨rf, .jsonArr (h0 ++ fetches.map
          (fun x => mkHistoryRecord pair x.1 x.2 source))⟩ := by
  intro fetches
  induction fetches with
  | nil => intro rf h0; simp [appendMany]
  | cons x rest ih =>
    intro rf h0
    obtain ⟨r, t⟩ := x
    have happ := append_ok_of_sep ⟨rf, .jsonArr h0⟩ t r source hsep
    simp only [appendMany, happ]
    refine Eq.trans (ih rf (h0 ++ [mkHistoryRecord pair r t source])) ?_
    simp

/-- C6: a successful `append_to_history` keeps every existing record
unchanged and appends exactly one new record at the end; `N` successful
appends of the same pair at pairwise-distinct valid instants, starting
from an empty history, leave exactly the `N` records of that pair in
fetch order, with pairwise-distinct ids. -/
theorem C6_history_append_only :
    (∀ (st st' : Store) (t : UtcTime) (pair : String) (rate : ℚ) (source : String),
      append_to_history st t pair rate source = .ok st' →
      st'.ratesFile = st.ratesFile ∧
      st'.historyFile = .jsonArr (load_history st.historyFile ++
        [mkHistoryRecord pair rate t source])) ∧
    (∀ (rf : FileState) (pair source : String) (fetches : List (ℚ × UtcTime)),
      strHasChar pair '_' = true →
      (∀ t ∈ fetches.map Prod.snd, ValidTime t) →
      (fetches.map Prod.snd).Nodup →
      appendMany pair source ⟨rf, .jsonArr []⟩ fetches =
        .ok ⟨rf, .jsonArr (fetches.map
          (fun x => mkHistoryRecord pair x.1 x.2 source))⟩ ∧
      (fetches.map (fun x => mkHistoryRecord pair x.1 x.2 source)).length =
        fetches.length ∧
      ((fetches.map (fun x => mkHistoryRecord pair x.1 x.2 source)).map
        (fun rec => rec.id)).Nodup) := by
  constructor
  · intro st st' t pair rate source h
    exact append_ok_inv h
  · intro rf pair source fetches hsep hvalid hdist
    refine ⟨by simpa using appendMany_ok pair source hsep fetches rf [], by simp, ?_⟩
    rw [List.map_map]
    have hfun : ((fun rec : HistoryRecord => rec.id) ∘
        (fun x : ℚ × UtcTime => mkHistoryRecord pair x.1 x.2 source)) =
        (fun t : UtcTime =>
          (pyUpper ((pySplitChar pair '_').headD "") ++ "_" ++
            (if (pySplitChar pair '_').length > 1 then
              pyUpper ((pySplitChar pair '_').getD 1 "") else BASE_CURRENCY) ++ "_")
            ++ stripTs (isoformat t)) ∘ Prod.snd := by
      funext x
      rfl
    rw [hfun, ← List.map_map]
    refine List.Nodup.map_on ?_ hdist
    intro x hx y hy hxy
    have hstrip := string_append_left_cancel hxy
    exact stripTs_isoformat_inj (hvalid x hx) (hvalid y hy) hstrip


/-- Witness for C6: one concrete append, then two appends of `EUR_USD`
at the distinct valid instants `t0`, `t1`. -/
theorem C6_witness :
    (append_to_history st0 t0 "EUR_USD" 1 "x" =
        .ok ⟨st0.ratesFile, .jsonArr (load_history st0.historyFile ++
          [mkHistoryRecord "EUR_USD" 1 t0 "x"])⟩ ∧
      (⟨st0.ratesFile, .jsonArr (load_history st0.historyFile ++
          [mkHistoryRecord "EUR_USD" 1 t0 "x"])⟩ : Store).ratesFile = st0.ratesFile) ∧
    (strHasChar "EUR_USD" '_' = true ∧
      (∀ t ∈ ([(1, t0), (2, t1)] : List (ℚ × UtcTime)).map Prod.snd, ValidTime t) ∧
      (([(1, t0), (2, t1)] : List (ℚ × UtcTime)).map Prod.snd).Nodup ∧
      appendMany "EUR_USD" "x" ⟨.absent, .jsonArr []⟩ [(1, t0), (2, t1)] =
        .ok ⟨.absent, .jsonArr (([(1, t0), (2, t1)] : List (ℚ × UtcTime)).map
          (fun x => mkHistoryRecord "EUR_USD" x.1 x.2 "x"))⟩ ∧
      ((([(1, t0), (2, t1)] : List (ℚ × UtcTime)).map
        (fun x => mkHistoryRecord "EUR_USD" x.1 x.2 "x")).map
          (fun rec => rec.id)).Nodup) :=
  ⟨⟨rfl, (C6_history_append_only.1 st0 _ t0 "EUR_USD" 1 "x" rfl).1⟩,
   ⟨rfl, by decide, by decide,
    (C6_history_append_only.2 .absent "EUR_USD" "x" [(1, t0), (2, t1)]
      rfl (by decide) (by decide)).1,
    (C6_history_append_only.2 .absent "EUR_USD" "x" [(1, t0), (2, t1)]
      rfl (by decide) (by decide)).2.2⟩⟩


theorem string_append_right_cancel {s a b : String} (h : a ++ s = b ++ s) :
    a = b := by
  have hd := congrArg String.data h
  rw [string_data_append, string_data_append] at hd
  exact congrArg String.mk (List.append_cancel_right hd)

theorem pairKey_inj {a b : String} (h : a ++ "_" ++ BASE_CURRENCY =
    b ++ "_" ++ BASE_CURRENCY) : a = b :=
  string_append_right_cancel (string_append_right_cancel h)

theorem dictHasKey_iff_mem {α : Type} (d : List (String × α)) (p : String) :
    dictHasKey d p = true ↔ p ∈ d.map Prod.fst := by
  induction d with
  | nil => simp
  | cons kv rest ih =>
    by_cases h : kv.1 = p
    · simp [h]
    · simp [h, Ne.symm h, ih, List.mem_cons]

theorem dictHasKey_insert {α : Type} {d : List (String × α)} {key p : String}
    {v : α} (h : dictHasKey (dictInsert d key v) p = true) :
    dictHasKey d p = true ∨ p = key := by
  rw [dictHasKey_iff_mem, dictInsert_keys] at h
  by_cases hk : dictHasKey d key = true
  · rw [if_pos hk] at h
    exact Or.inl ((dictHasKey_iff_mem d p).mpr h)
  · rw [if_neg hk] at h
    rcases List.mem_append.mp h with h1 | h1
    · exact Or.inl ((dictHasKey_iff_mem d p).mpr h1)
    · simp at h1
      exact Or.inr h1

theorem cgLoop_lookup_none (data : List (String × List (String × ℚ))) :
    ∀ (idmap : List (String × String)) (rates : List (String × ℚ)) (p : String),
      (∀ cp ∈ idmap, dictLookup data cp.2 = none ∨
        cp.1 ++ "_" ++ BASE_CURRENCY ≠ p) →
      dictLookup (cgLoop data idmap rates) p = dictLookup rates p := by
  intro idmap
  induction idmap with
  | nil => intro rates p _; rfl
  | cons cp rest ih =>
    intro rates p hyp
    obtain ⟨code, coin_id⟩ := cp
    have hyp' := fun cp h => hyp cp (List.mem_cons_of_mem _ h)
    cases hd : dictLookup data coin_id with
    | none =>
      simp only [cgLoop, hd]
      exact ih rates p hyp'
    | some entry =>
      cases hu : dictLookup entry (pyLower BASE_CURRENCY) with
      | none =>
        simp only [cgLoop, hd, hu]
        exact ih rates p hyp'
      | some rate =>
        have hne : code ++ "_" ++ BASE_CURRENCY ≠ p := by
          rcases hyp (code, coin_id) (by simp) with h1 | h1
          · rw [hd] at h1; exact absurd h1 (by simp)
          · exact h1
        simp only [cgLoop, hd, hu]
        rw [ih _ p hyp', dictLookup_insert_other _ _ (fun hc => hne hc.symm)]

theorem cgLoop_hasKey (data : List (String × List (String × ℚ))) :
    ∀ (idmap : List (String × String)) (rates : List (String × ℚ)) (p : String),
      dictHasKey (cgLoop data idmap rates) p = true →
      dictHasKey rates p = true ∨
        ∃ cp ∈ idmap, p = cp.1 ++ "_" ++ BASE_CURRENCY ∧
          ∃ entry, dictLookup data cp.2 = some entry ∧
            (dictLookup entry (pyLower BASE_CURRENCY)).isSome = true := by
  intro idmap
  induction idmap with
  | nil => intro rates p h; exact Or.inl h
  | cons cp rest ih =>
    intro rates p h
    obtain ⟨code, coin_id⟩ := cp
    cases hd : dictLookup data coin_id with
    | none =>
      simp only [cgLoop, hd] at h
      rcases ih rates p h with h1 | ⟨cp', hmem, hp⟩
      · exact Or.inl h1
      · exact Or.inr ⟨cp', List.mem_cons_of_mem _ hmem, hp⟩
    | some entry =>
      cases hu : dictLookup entry (pyLower BASE_CURRENCY) with
      | none =>
        simp only [cgLoop, hd, hu] at h
        rcases ih rates p h with h1 | ⟨cp', hmem, hp⟩
        · exact Or.inl h1
        · exact Or.inr ⟨cp', List.mem_cons_of_mem _ hmem, hp⟩
      | some rate =>
        simp only [cgLoop, hd, hu] at h
        rcases ih _ p h with h1 | ⟨cp', hmem, hp⟩
        · rcases dictHasKey_insert h1 with h2 | h2
          · exact Or.inl h2
          · exact Or.inr ⟨(code, coin_id), by simp, h2, entry, hd, by rw [hu]; rfl⟩
        · exact Or.inr ⟨cp', List.mem_cons_of_mem _ hmem, hp⟩


theorem invertLoop_lookup_none (conv : List (String × ℚ)) :
    ∀ (codes : List String) (rates : List (String × ℚ)) (p : String),
      (∀ c ∈ codes, ∀ n, dictLookup conv c = some n → n ≠ 0) →
      (∀ c ∈ codes, dictLookup conv c = none ∨ c ++ "_" ++ BASE_CURRENCY ≠ p) →
      ∃ out, invertLoop conv codes rates = .ok out ∧
        dictLookup out p = dictLookup rates p := by
  intro codes
  induction codes with
  | nil => intro rates p _ _; exact ⟨rates, rfl, rfl⟩
  | cons c rest ih =>
    intro rates p hz hyp
    have hz' := fun c h => hz c (List.mem_cons_of_mem _ h)
    have hyp' := fun c h => hyp c (List.mem_cons_of_mem _ h)
    cases hlk : dictLookup conv c with
    | none =>
      simp only [invertLoop, hlk]
      exact ih rates p hz' hyp'
    | some n =>
      have hn : n ≠ 0 := hz c (by simp) n hlk
      have hne : c ++ "_" ++ BASE_CURRENCY ≠ p := by
        rcases hyp c (by simp) with h1 | h1
        · rw [hlk] at h1; exact absurd h1 (by simp)
        · exact h1
      simp only [invertLoop, hlk, if_neg hn]
      obtain ⟨out, hout, hlkp⟩ := ih (dictInsert rates (c ++ "_" ++ BASE_CURRENCY) (1 / n)) p hz' hyp'
      exact ⟨out, hout, by
        rw [hlkp, dictLookup_insert_other _ _ (fun hc => hne hc.symm)]⟩

theorem invertLoop_lookup_some (conv : List (String × ℚ)) :
    ∀ (codes : List String) (rates : List (String × ℚ)) (c₀ : String) (n : ℚ),
      codes.Nodup → c₀ ∈ codes → dictLookup conv c₀ = some n →
      (∀ c ∈ codes, ∀ m, dictLookup conv c = some m → m ≠ 0) →
      ∃ out, invertLoop conv codes rates = .ok out ∧
        dictLookup out (c₀ ++ "_" ++ BASE_CURRENCY) = some (1 / n) := by
  intro codes
  induction codes with
  | nil => intro rates c₀ n _ hmem; simp at hmem
  | cons c rest ih =>
    intro rates c₀ n hnd hmem hlk0 hz
    have hz' := fun c h => hz c (List.mem_cons_of_mem _ h)
    by_cases hc : c = c₀
    · subst hc
      have hn : n ≠ 0 := hz c (by simp) n hlk0
      have hnotin : c ∉ rest := (List.nodup_cons.mp hnd).1
      simp only [invertLoop, hlk0, if_neg hn]
      have hside : ∀ c' ∈ rest, dictLookup conv c' = none ∨
          c' ++ "_" ++ BASE_CURRENCY ≠ c ++ "_" ++ BASE_CURRENCY := by
        intro c' hc'
        refine Or.inr (fun heq => ?_)
        rw [pairKey_inj heq] at hc'
        exact hnotin hc'
      obtain ⟨out, hout, hlkp⟩ :=
        invertLoop_lookup_none conv rest
          (dictInsert rates (c ++ "_" ++ BASE_CURRENCY) (1 / n))
          (c ++ "_" ++ BASE_CURRENCY) hz' hside
      exact ⟨out, hout, by rw [hlkp, dictLookup_insert_self]⟩
    · have hmem' : c₀ ∈ rest := by
        rcases List.mem_cons.mp hmem with h1 | h1
        · exact absurd h1.symm hc
        · exact h1
      have hnd' : rest.Nodup := (List.nodup_cons.mp hnd).2
      cases hlk : dictLookup conv c with
      | none =>
        simp only [invertLoop, hlk]
        exact ih rates c₀ n hnd' hmem' hlk0 hz'
      | some m =>
        have hm : m ≠ 0 := hz c (by simp) m hlk
        simp only [invertLoop, hlk, if_neg hm]
        exact ih _ c₀ n hnd' hmem' hlk0 hz'


theorem invertLoop_isOk (conv : List (String × ℚ)) :
    ∀ (codes : List String) (rates : List (String × ℚ)),
      (∀ c ∈ codes, ∀ n, dictLookup conv c = some n → n ≠ 0) →
      ∃ out, invertLoop conv codes rates = .ok out := by
  intro codes
  induction codes with
  | nil => intro rates _; exact ⟨rates, rfl⟩
  | cons c rest ih =>
    intro rates hz
    have hz' := fun c h => hz c (List.mem_cons_of_mem _ h)
    cases hlk : dictLookup conv c with
    | none =>
      simp only [invertLoop, hlk]
      exact ih rates hz'
    | some n =>
      have hn : n ≠ 0 := hz c (by simp) n hlk
      simp only [invertLoop, hlk, if_neg hn]
      exact ih _ hz'

/-- C8 (amended): on a successful forex response whose configured
multipliers are all nonzero, the forex adapter produces exactly the pair
`CODE_USD ↦ 1/N` for every configured code with multiplier `N` present in
`conversion_rates` and no pair for a configured code that is absent (a
zero multiplier instead aborts the whole fetch, see the counterexample);
the crypto adapter includes a pair only for assets present in its
response (with the lowercase base-currency price), silently skipping
missing assets. -/
theorem C8_adapter_pair_production :
    (∀ (api_key : String) (resp : FxResponse),
      ¬(api_key = "" ∨ api_key = "YOUR_API_KEY_HERE") →
      resp.result = "success" →
      (∀ c ∈ FIAT_CURRENCIES, ∀ n, dictLookup resp.conversion_rates c = some n → n ≠ 0) →
      ∃ rates, fetch_rates_exchangerate api_key resp = .ok rates ∧
        (∀ c ∈ FIAT_CURRENCIES, ∀ n, dictLookup resp.conversion_rates c = some n →
          dictLookup rates (c ++ "_" ++ BASE_CURRENCY) = some (1 / n)) ∧
        (∀ c ∈ FIAT_CURRENCIES, dictLookup resp.conversion_rates c = none →
          dictLookup rates (c ++ "_" ++ BASE_CURRENCY) = none)) ∧
    (∀ (data : List (String × List (String × ℚ))), ∀ cp ∈ CRYPTO_ID_MAP,
      dictLookup data cp.2 = none →
      dictLookup (fetch_rates_coingecko data) (cp.1 ++ "_" ++ BASE_CURRENCY) = none) ∧
    (∀ (data : List (String × List (String × ℚ))) (p : String),
      dictHasKey (fetch_rates_coingecko data) p = true →
      ∃ cp ∈ CRYPTO_ID_MAP, p = cp.1 ++ "_" ++ BASE_CURRENCY ∧
        ∃ entry, dictLookup data cp.2 = some entry ∧
          (dictLookup entry (pyLower BASE_CURRENCY)).isSome = true) := by
  refine ⟨?_, ?_, ?_⟩
  · intro api_key resp hkey hres hz
    have hsuc : ¬(resp.result ≠ "success") := by simp [hres]
    obtain ⟨out, hout⟩ := invertLoop_isOk resp.conversion_rates FIAT_CURRENCIES [] hz
    refine ⟨out, ?_, ?_, ?_⟩
    · simp only [fetch_rates_exchangerate, if_neg hkey, fxTryBody, if_neg hsuc, hout]
    · intro c hc n hn
      obtain ⟨out', hout', hlk⟩ :=
        invertLoop_lookup_some resp.conversion_rates FIAT_CURRENCIES [] c n
          (by decide) hc hn hz
      rw [hout] at hout'
      injection hout' with h'
      rw [← h'] at hlk
      exact hlk
    · intro c hc hnone
      have hside : ∀ c' ∈ FIAT_CURRENCIES, dictLookup resp.conversion_rates c' = none ∨
          c' ++ "_" ++ BASE_CURRENCY ≠ c ++ "_" ++ BASE_CURRENCY := by
        intro c' hc'
        by_cases heq : c' ++ "_" ++ BASE_CURRENCY = c ++ "_" ++ BASE_CURRENCY
        · rw [pairKey_inj heq]
          exact Or.inl hnone
        · exact Or.inr heq
      obtain ⟨out', hout', hlk⟩ :=
        invertLoop_lookup_none resp.conversion_rates FIAT_CURRENCIES []
          (c ++ "_" ++ BASE_CURRENCY) hz hside
      rw [hout] at hout'
      injection hout' with h'
      rw [← h'] at hlk
      exact hlk
  · intro data cp hcp hnone
    have hfst : ∀ a ∈ CRYPTO_ID_MAP, ∀ b ∈ CRYPTO_ID_MAP, a.1 = b.1 → a = b := by decide
    have hside : ∀ cp' ∈ CRYPTO_ID_MAP, dictLookup data cp'.2 = none ∨
        cp'.1 ++ "_" ++ BASE_CURRENCY ≠ cp.1 ++ "_" ++ BASE_CURRENCY := by
      intro cp' hcp'
      by_cases heq : cp'.1 ++ "_" ++ BASE_CURRENCY = cp.1 ++ "_" ++ BASE_CURRENCY
      · rw [hfst cp' hcp' cp hcp (pairKey_inj heq)]
        exact Or.inl hnone
      · exact Or.inr heq
    unfold fetch_rates_coingecko
    rw [cgLoop_lookup_none data CRYPTO_ID_MAP [] _ hside]
    rfl
  · intro data p h
    unfold fetch_rates_coingecko at h
    rcases cgLoop_hasKey data CRYPTO_ID_MAP [] p h with h1 | h2
    · simp at h1
    · exact h2

/-- C8 counterexample: a successful response carrying the configured code
`EUR` with multiplier `0` makes the whole forex fetch raise (the
`ZeroDivisionError` is re-wrapped as `ApiRequestError`), so the result
contains no pair at all — the claim instead promises a pair for every
multiplier present. -/
theorem C8_counterexample :
    "EUR" ∈ FIAT_CURRENCIES ∧
    dictLookup [("EUR", (0 : ℚ))] "EUR" = some 0 ∧
    fetch_rates_exchangerate "key" ⟨"success", [("EUR", 0)], none⟩ =
      .error (.apiRequestError
        "Неизвестная ошибка при запросе к ExchangeRate-API: division by zero") :=
  ⟨by decide, rfl, rfl⟩


/-- Witness for C8: a successful forex response carrying `EUR ↦ 2` and a
crypto response carrying only `bitcoin`. -/
theorem C8_witness :
    (¬(("key" : String) = "" ∨ ("key" : String) = "YOUR_API_KEY_HERE") ∧
      (FxResponse.mk "success" [("EUR", 2)] none).result = "success" ∧
      (∀ c ∈ FIAT_CURRENCIES, ∀ n,
        dictLookup (FxResponse.mk "success" [("EUR", (2 : ℚ))] none).conversion_rates c
          = some n → n ≠ 0)) ∧
    (∃ rates, fetch_rates_exchangerate "key" ⟨"success", [("EUR", 2)], none⟩ =
        .ok rates ∧
      (∀ c ∈ FIAT_CURRENCIES, ∀ n,
        dictLookup (FxResponse.mk "success" [("EUR", (2 : ℚ))] none).conversion_rates c
          = some n →
        dictLookup rates (c ++ "_" ++ BASE_CURRENCY) = some (1 / n)) ∧
      (∀ c ∈ FIAT_CURRENCIES,
        dictLookup (FxResponse.mk "success" [("EUR", (2 : ℚ))] none).conversion_rates c
          = none →
        dictLookup rates (c ++ "_" ++ BASE_CURRENCY) = none)) ∧
    (dictLookup [("bitcoin", [("usd", (3 : ℚ))])] "ethereum" = none ∧
      dictLookup (fetch_rates_coingecko [("bitcoin", [("usd", 3)])])
        ("ETH" ++ "_" ++ BASE_CURRENCY) = none) ∧
    (dictHasKey (fetch_rates_coingecko [("bitcoin", [("usd", 3)])]) "BTC_USD" = true ∧
      ∃ cp ∈ CRYPTO_ID_MAP, ("BTC_USD" : String) = cp.1 ++ "_" ++ BASE_CURRENCY ∧
        ∃ entry, dictLookup [("bitcoin", [("usd", (3 : ℚ))])] cp.2 = some entry ∧
          (dictLookup entry (pyLower BASE_CURRENCY)).isSome = true) := by
  have hz : ∀ c ∈ FIAT_CURRENCIES, ∀ n,
      dictLookup [("EUR", (2 : ℚ))] c = some n → n ≠ 0 := by
    intro c hc n h
    by_cases hce : ("EUR" : String) = c
    · simp [dictLookup, hce] at h
      rw [← h]
      norm_num
    · simp [dictLookup, hce] at h
  refine ⟨⟨by decide, rfl, hz⟩,
    C8_adapter_pair_production.1 "key" ⟨"success", [("EUR", 2)], none⟩
      (by decide) rfl hz,
    ⟨rfl, C8_adapter_pair_production.2.1 [("bitcoin", [("usd", 3)])]
      ("ETH", "ethereum") (by decide) rfl⟩,
    ⟨rfl, C8_adapter_pair_production.2.2 [("bitcoin", [("usd", 3)])] "BTC_USD" rfl⟩⟩

end ValutaTrade
